import Mathlib

/-!
Verification development for the concepter in-memory node graph core:
per-node state snapshots, snapshot diffing, replay/undo of diffs,
registry deduplication, depth-bounded descendant checks and propagated
change scoring (sources: `containers/stateTools.py`,
`container_base/baseTools.py`, `containers/baseContainer.py`).

Containers (graph nodes) are modelled by numeric object tokens (Python
object identity); `idOf` gives the string stored under the `"id"` key of
each container, and a registry is the `instances` list of live tokens.
Position descriptors ("relationships") are Python `None`, a bare string,
or a dict, modelled by `Rel`; dict values are modelled as strings and
dict equality is Python's key-wise `==`.
-/

namespace Concepter

/-- Lookup in an association-list dictionary (first binding wins). -/
def dlookup : List (String × String) → String → Option String
  | [], _ => none
  | kv :: m, k => if kv.1 == k then some kv.2 else dlookup m k

/-- Python `==` on dicts: the two lookup functions agree wherever either
side has a key.  For lists with distinct keys (every dict the program
builds) this is exactly Python dict equality. -/
def dictEq (m1 m2 : List (String × String)) : Bool :=
  m1.all (fun kv => dlookup m2 kv.1 == dlookup m1 kv.1) &&
  m2.all (fun kv => dlookup m1 kv.1 == dlookup m2 kv.1)

/-- A position descriptor: Python `None`, a bare label string, or a dict. -/
inductive Rel where
  | rnone : Rel
  | rstr : String → Rel
  | rdict : List (String × String) → Rel
deriving DecidableEq, Repr

/-- Python truthiness of a position (`None`, `""` and `{}` are falsy). -/
def Rel.isTruthy : Rel → Bool
  | .rnone => false
  | .rstr s => s != ""
  | .rdict m => m != []

/-- Python `==` between two positions (dicts compared key-wise). -/
def relEq : Rel → Rel → Bool
  | .rnone, .rnone => true
  | .rstr a, .rstr b => a == b
  | .rdict a, .rdict b => dictEq a b
  | _, _ => false

/-- `StateTools._check_relationship`: normalize a position to a dict.
A dict that has a `"label"` key is returned as is; a bare string `s`
becomes `{label: s}`; everything else becomes `{label: ""}`. -/
def check_relationship : Rel → List (String × String)
  | .rdict m => if (dlookup m "label").isSome then m else [("label", "")]
  | .rstr s => [("label", s)]
  | .rnone => [("label", "")]

/-- First-match lookup in a string-keyed association list
(Python `d[k]` / `d.get(k)` / `k in d`). -/
def plookup {β : Type} : List (String × β) → String → Option β
  | [], _ => none
  | kv :: l, k => if kv.1 == k then some kv.2 else plookup l k

/-- Python dict assignment `d[k] = v`: overwrite in place if the key is
present, else append the new binding. -/
def pyInsert {β : Type} (d : List (String × β)) (k : String) (v : β) : List (String × β) :=
  if d.any (fun kv => kv.1 == k) then
    d.map (fun kv => if kv.1 == k then (k, v) else kv)
  else d ++ [(k, v)]

/-- Build a Python dict from a sequence of assignments (models the
`{cid: rel for cid, oid, rel in state}` comprehensions: first occurrence
fixes the key's place, last occurrence fixes its value). -/
def pyDictOf {β : Type} (l : List (String × β)) : List (String × β) :=
  l.foldl (fun d kv => pyInsert d kv.1 kv.2) []

/-- `a` if it is `some`, else `b`. -/
def orElseO {β : Type} : Option β → Option β → Option β
  | some v, _ => some v
  | none, b => b

/-- The skip-or-insert step both scans of `compare_two_states` perform on
the `differences` dict: insert the generated entry under the scanned key,
or leave the dict unchanged. -/
def insStep {α γ : Type} (key : α → String) (g : α → Option γ)
    (d : List (String × γ)) (x : α) : List (String × γ) :=
  match g x with
  | some v => pyInsert d (key x) v
  | none => d

/-- Status of a diff entry. -/
inductive DiffStatus where
  | added : DiffStatus
  | changed : DiffStatus
  | removed : DiffStatus
deriving DecidableEq, Repr

/-- One entry of a state diff as built by `compare_two_states`:
the `status`, the human-readable `relationship` label, and the
normalized position dicts (`relationship_dict` is present only on
added/changed entries, `base_relationship_dict` only on changed/removed
entries, mirroring which keys the Python dicts carry). -/
structure DiffEntry where
  status : DiffStatus
  relationship : String
  relationship_dict : Option (List (String × String))
  base_relationship_dict : Option (List (String × String))
deriving DecidableEq, Repr

/-- `relationship_dict["label"]`: the label of a normalized position
(`check_relationship` output always has the key). -/
def labelOf (m : List (String × String)) : String :=
  (dlookup m "label").getD ""

/-- A stored snapshot: `(child id, child object token, position)` triples
as captured by `switch_state`. -/
abbrev Snapshot := List (String × Nat × Rel)

/-- The `{container_id: relationship for container_id, container_object_id,
relationship in state}` projection of a snapshot. -/
def projSnap (s : Snapshot) : List (String × Rel) :=
  s.map (fun t => (t.1, t.2.2))

/-- The per-id classification a diff performs, given the source-side and
target-side positions of one child id. -/
def diffOfPair : Option Rel → Option Rel → Option DiffEntry
  | none, some r =>
      some ⟨.added, labelOf (check_relationship r), some (check_relationship r), none⟩
  | some sr, some r =>
      if dictEq (check_relationship sr) (check_relationship r) then none
      else
        some ⟨.changed,
          labelOf (check_relationship sr) ++ " -> " ++ labelOf (check_relationship r),
          some (check_relationship r), some (check_relationship sr)⟩
  | some sr, none =>
      some ⟨.removed, labelOf (check_relationship sr), none, some (check_relationship sr)⟩
  | none, none => none

/-- `StateTools.compare_two_states` body acting on two snapshot lists:
convert both states to dicts, then record `added`/`changed` entries
while scanning the target dict and `removed` entries while scanning the
source dict, building the `differences` dict by assignment. -/
def compareStates (source target : Snapshot) : List (String × DiffEntry) :=
  (pyDictOf (projSnap source)).foldl (fun differences kv =>
    match plookup (pyDictOf (projSnap target)) kv.1 with
    | some _ => differences
    | none =>
        pyInsert differences kv.1
          ⟨.removed, labelOf (check_relationship kv.2), none,
            some (check_relationship kv.2)⟩)
    ((pyDictOf (projSnap target)).foldl (fun differences kv =>
      match plookup (pyDictOf (projSnap source)) kv.1 with
      | none =>
          pyInsert differences kv.1
            ⟨.added, labelOf (check_relationship kv.2), some (check_relationship kv.2), none⟩
      | some source_relationship =>
          if dictEq (check_relationship source_relationship) (check_relationship kv.2) then
            differences
          else
            pyInsert differences kv.1
              ⟨.changed,
                labelOf (check_relationship source_relationship) ++ " -> " ++
                  labelOf (check_relationship kv.2),
                some (check_relationship kv.2),
                some (check_relationship source_relationship)⟩) [])

/-- The entry the target-side scan of `compareStates` produces for one
target-dict binding. -/
def targetEntry (source_dict : List (String × Rel)) (kv : String × Rel) : Option DiffEntry :=
  diffOfPair (plookup source_dict kv.1) (some kv.2)

/-- The entry the source-side scan of `compareStates` produces for one
source-dict binding. -/
def sourceEntry (target_dict : List (String × Rel)) (kv : String × Rel) : Option DiffEntry :=
  match plookup target_dict kv.1 with
  | some _ => none
  | none => diffOfPair (some kv.2) none

/-- A node's state-relevant attributes: its live edge list (`.containers`,
child object token with position), the `allStates` snapshot dict and the
`activeState` name (`none` models an unset value). -/
structure NodeState where
  edges : List (Nat × Rel)
  allStates : List (String × Snapshot)
  activeState : Option String

/-- `StateTools.compare_two_states(source_state, target_state)`: compare
two states by name; a name with no stored snapshot defaults to `[]`. -/
def compare_two_states (node : NodeState) (source_state target_state : String) :
    List (String × DiffEntry) :=
  compareStates ((plookup node.allStates source_state).getD [])
    ((plookup node.allStates target_state).getD [])

/-- `baseTools.get_instance_by_id`: linear scan of the registry comparing
string-normalized ids; `None` when absent. -/
def get_instance_by_id (instances : List Nat) (idOf : Nat → String) (key : String) :
    Option Nat :=
  instances.find? (fun o => idOf o == key)

/-- Fuel-indexed body of `baseTools.checkIsDescendent`; the fuel only
makes the recursion structural and is always instantiated large enough
to outlast the `current_depth > depth_limit` guard
(`checkIsDescendent_unfold` recovers the source's recursion verbatim). -/
def checkIsDescendentAux (children : Nat → List Nat) (a depth_limit : Nat) :
    Nat → Nat → Nat → Bool
  | 0, _, _ => false
  | fuel + 1, b, current_depth =>
    if depth_limit < current_depth then false
    else (children b).any (fun child =>
      child == a || checkIsDescendentAux children a depth_limit fuel child (current_depth + 1))

/-- `baseTools.checkIsDescendent(b, a, depth_limit, current_depth)`:
depth-limited recursive search of `b`'s subtree for `a` (no visited
set); `false` once `current_depth` exceeds `depth_limit`. -/
def checkIsDescendent (children : Nat → List Nat) (b a : Nat)
    (depth_limit : Nat) (current_depth : Nat) : Bool :=
  checkIsDescendentAux children a depth_limit (depth_limit + 1 - current_depth) b current_depth

/-- There is a directed edge path of exactly `n` hops from `x` to `y`. -/
def hasPathLen (children : Nat → List Nat) : Nat → Nat → Nat → Bool
  | 0, x, y => x == y
  | n + 1, x, y => (children x).any (fun c => hasPathLen children n c y)

/-- The edge-list effect of `baseTools.add_container`: append. -/
def add_container_edges (E : List (Nat × Rel)) (child : Nat) (position : Rel) :
    List (Nat × Rel) :=
  E ++ [(child, position)]

/-- `baseTools.add_container(child, position)`: first runs the
descendant check (`child_container.checkIsDescendent(self)`, noting in
the log when the new child is already an ancestor of `self`), then
appends the edge regardless.  Returns the new edge list together with
whether the warning fired. -/
def add_container (children : Nat → List Nat) (E : List (Nat × Rel))
    (selfC child : Nat) (position : Rel) : List (Nat × Rel) × Bool :=
  (add_container_edges E child position, checkIsDescendent children child selfC 4 0)

/-- `baseTools.remove_container`: drop every edge to the given object. -/
def remove_container_edges (E : List (Nat × Rel)) (c : Nat) : List (Nat × Rel) :=
  E.filter (fun e => e.1 != c)

/-- `baseTools.setPosition`: replace the position on the first edge to
`target`, appending a new edge when there is none. -/
def setPosition : List (Nat × Rel) → Nat → Rel → List (Nat × Rel)
  | [], target, position => [(target, position)]
  | e :: rest, target, position =>
    if e.1 == target then (e.1, position) :: rest
    else e :: setPosition rest target position

/-- `baseContainer.add_container_by_id`: resolve the id, then append;
silently a no-op when the id does not resolve. -/
def add_container_by_id (instances : List Nat) (idOf : Nat → String)
    (E : List (Nat × Rel)) (cid : String) (relationship : Rel) : List (Nat × Rel) :=
  match get_instance_by_id instances idOf cid with
  | some container => add_container_edges E container relationship
  | none => E

/-- `baseContainer.remove_container_by_id`: resolve the id, then remove;
silently a no-op when the id does not resolve. -/
def remove_container_by_id (instances : List Nat) (idOf : Nat → String)
    (E : List (Nat × Rel)) (cid : String) : List (Nat × Rel) :=
  match get_instance_by_id instances idOf cid with
  | some container => remove_container_edges E container
  | none => E

/-- `baseContainer.update_container_relationship`: upsert the position of
the resolved child; `none` models the `ValueError` raised when the id
does not resolve. -/
def update_container_relationship (instances : List Nat) (idOf : Nat → String)
    (E : List (Nat × Rel)) (cid : String) (relationship : Rel) :
    Option (List (Nat × Rel)) :=
  match get_instance_by_id instances idOf cid with
  | some container => some (setPosition E container relationship)
  | none => none

/-- One step of `StateTools.apply_differences`: `added` re-adds by id
with the entry's `relationship_dict`, `changed` upserts the new position
(the branch is guarded by its own resolvability check, under which the
`update_container_relationship` call cannot raise), `removed` removes by
id. -/
def applyStep (instances : List Nat) (idOf : Nat → String)
    (E : List (Nat × Rel)) (entry : String × DiffEntry) : List (Nat × Rel) :=
  match entry.2.status with
  | .added =>
      add_container_by_id instances idOf E entry.1
        (.rdict (entry.2.relationship_dict.getD []))
  | .changed =>
      match get_instance_by_id instances idOf entry.1 with
      | some container =>
          setPosition E container (.rdict (entry.2.relationship_dict.getD []))
      | none => E
  | .removed => remove_container_by_id instances idOf E entry.1

/-- `StateTools.apply_differences`: skip unless the diff dict has an
entry for this node's id, else replay that entry's child diffs in dict
order. -/
def apply_differences (instances : List Nat) (idOf : Nat → String) (selfId : String)
    (differences : List (String × List (String × DiffEntry))) (E : List (Nat × Rel)) :
    List (Nat × Rel) :=
  match plookup differences selfId with
  | none => E
  | some container_differences => container_differences.foldl (applyStep instances idOf) E

/-- One step of `StateTools.revert_differences`.  The `changed` branch
calls `update_container_relationship` unguarded, so `none` models the
`ValueError` on an unresolvable id.  The `removed` branch reads
`change.get("relationship_dict", {})` — a key removed entries never
carry — so the child is re-added with the empty dict, not with the
stored `base_relationship_dict`. -/
def revertStep (instances : List Nat) (idOf : Nat → String)
    (E : List (Nat × Rel)) (entry : String × DiffEntry) : Option (List (Nat × Rel)) :=
  match entry.2.status with
  | .added => some (remove_container_by_id instances idOf E entry.1)
  | .changed =>
      update_container_relationship instances idOf E entry.1
        (.rdict (entry.2.base_relationship_dict.getD []))
  | .removed =>
      some (add_container_by_id instances idOf E entry.1
        (.rdict (entry.2.relationship_dict.getD [])))

/-- `StateTools.revert_differences`: skip unless the diff dict has an
entry for this node's id, else undo that entry's child diffs in dict
order (`none` models an escaping `ValueError`). -/
def revert_differences (instances : List Nat) (idOf : Nat → String) (selfId : String)
    (differences : List (String × List (String × DiffEntry))) (E : List (Nat × Rel)) :
    Option (List (Nat × Rel)) :=
  match plookup differences selfId with
  | none => some E
  | some container_differences =>
      container_differences.foldlM (revertStep instances idOf) E

/-- The position on the first edge to a child whose id is `cid`. -/
def elookup (idOf : Nat → String) : List (Nat × Rel) → String → Option Rel
  | [], _ => none
  | e :: E, cid => if idOf e.1 == cid then some e.2 else elookup idOf E cid

/-- Each child of the edge list resolves, through its own id, back to
itself: no distinct registered object shadows it in the registry scan. -/
def EdgesResolved (instances : List Nat) (idOf : Nat → String) (E : List (Nat × Rel)) : Prop :=
  ∀ e ∈ E, get_instance_by_id instances idOf (idOf e.1) = some e.1

/-- The effect of one `apply_differences` step on the lookup of its own
child id. -/
def applyEffect (instances : List Nat) (idOf : Nat → String) (cid : String)
    (d : DiffEntry) (old : Option Rel) : Option Rel :=
  match get_instance_by_id instances idOf cid with
  | none => old
  | some _ =>
    match d.status with
    | .added => orElseO old (some (.rdict (d.relationship_dict.getD [])))
    | .changed => some (.rdict (d.relationship_dict.getD []))
    | .removed => none

/-- The pure shadow of `revertStep` on the branch where no `ValueError`
is raised (`changed` entries with an unresolvable id leave the list
unchanged; that branch is unreachable whenever the `foldlM` succeeds). -/
def revertStepPure (instances : List Nat) (idOf : Nat → String)
    (E : List (Nat × Rel)) (entry : String × DiffEntry) : List (Nat × Rel) :=
  match entry.2.status with
  | .added => remove_container_by_id instances idOf E entry.1
  | .changed =>
      match get_instance_by_id instances idOf entry.1 with
      | some container =>
          setPosition E container (.rdict (entry.2.base_relationship_dict.getD []))
      | none => E
  | .removed =>
      add_container_by_id instances idOf E entry.1
        (.rdict (entry.2.relationship_dict.getD []))

/-- The effect of one `revert_differences` step on the lookup of its own
child id: `added` entries are removed, `changed` entries are restored to
the base position, `removed` entries are re-added with the empty dict
(the code reads a key removed entries do not carry). -/
def revertEffect (instances : List Nat) (idOf : Nat → String) (cid : String)
    (d : DiffEntry) (old : Option Rel) : Option Rel :=
  match get_instance_by_id instances idOf cid with
  | none => old
  | some _ =>
    match d.status with
    | .added => none
    | .changed => some (.rdict (d.base_relationship_dict.getD []))
    | .removed => orElseO old (some (.rdict (d.relationship_dict.getD [])))

/-- Pointwise Python `==` between two optional positions. -/
def optionRelEq : Option Rel → Option Rel → Bool
  | none, none => true
  | some a, some b => relEq a b
  | _, _ => false

/-- Pointwise Python `==` between two optional dicts. -/
def odictEq : Option (List (String × String)) → Option (List (String × String)) → Bool
  | none, none => true
  | some a, some b => dictEq a b
  | _, _ => false

/-- "The node's edge list equals the captured snapshot": same length and
pointwise the same child id and a Python-equal position. -/
def edgesAgree (idOf : Nat → String) : List (Nat × Rel) → Snapshot → Bool
  | [], [] => true
  | e :: E, t :: S => idOf e.1 == t.1 && relEq e.2 t.2.2 && edgesAgree idOf E S
  | _ :: _, [] => false
  | [], _ :: _ => false

/-- Python falsy-to-`None` coercion applied to a stored position
(`copy.deepcopy(relationship) if relationship else None`). -/
def normFalsy (r : Rel) : Rel :=
  if r.isTruthy then r else .rnone

/-- The snapshot `switch_state` captures from the live edge list:
`(container id, container object id, deep-copied position)`, a falsy
position becoming `None`. -/
def captureState (idOf : Nat → String) (E : List (Nat × Rel)) : Snapshot :=
  E.map (fun e => (idOf e.1, e.1, normFalsy e.2))

/-- Rebuilding an edge list from a saved snapshot: resolve each entry by
object id first, falling back to container-id lookup; unresolvable
entries are dropped. -/
def resolveSnap (instances : List Nat) (idOf : Nat → String) (s : Snapshot) :
    List (Nat × Rel) :=
  s.filterMap (fun t =>
    (orElseO (instances.find? (fun inst => inst == t.2.1))
      (get_instance_by_id instances idOf t.1)).map (fun container => (container, t.2.2)))

/-- The active-state name `switch_state` reads: an unset or falsy (empty)
`activeState` value counts as `"base"`. -/
def activeName (s : NodeState) : String :=
  match s.activeState with
  | none => "base"
  | some a => if a == "" then "base" else a

/-- `StateTools.switch_state(newState)`: save the current edge list under
the current active name; if the new name has a stored snapshot, rebuild
the edge list from it, else store the captured snapshot under the new
name as well; finally make the new name active. -/
def switch_state (instances : List Nat) (idOf : Nat → String) (s : NodeState)
    (newState : String) : NodeState :=
  match plookup (pyInsert s.allStates (activeName s) (captureState idOf s.edges)) newState with
  | some saved_state =>
      ⟨resolveSnap instances idOf saved_state,
        pyInsert s.allStates (activeName s) (captureState idOf s.edges), some newState⟩
  | none =>
      ⟨s.edges,
        pyInsert (pyInsert s.allStates (activeName s) (captureState idOf s.edges))
          newState (captureState idOf s.edges), some newState⟩

/-- The scan of `deduplicate_all`: keep each container whose id has not
been seen yet. -/
def dedupScan (idOf : Nat → String) : List Nat → List String → List Nat
  | [], _ => []
  | c :: rest, seen_ids =>
    if seen_ids.contains (idOf c) then dedupScan idOf rest seen_ids
    else c :: dedupScan idOf rest (idOf c :: seen_ids)

/-- `baseTools.deduplicate_all(keep_last)`: scan the registry — reversed
when keeping the last occurrence — collecting containers whose id was
not yet seen, then reverse back to the original order. -/
def deduplicate_all (idOf : Nat → String) (instances : List Nat) (keep_last : Bool) :
    List Nat :=
  if keep_last then (dedupScan idOf instances.reverse []).reverse
  else dedupScan idOf instances []

/-- Keeping, in original order, exactly the last occurrence of each id. -/
def keepLastOcc (idOf : Nat → String) : List Nat → List Nat
  | [] => []
  | c :: rest =>
    if rest.any (fun d => idOf d == idOf c) then keepLastOcc idOf rest
    else c :: keepLastOcc idOf rest

/-- `count_own_changes`: the number of added/removed/changed entries in
one container's diff entry. -/
def count_own_changes (change_entry : List (String × DiffEntry)) : Nat :=
  change_entry.countP (fun kv =>
    kv.2.status == DiffStatus.added || kv.2.status == DiffStatus.removed ||
      kv.2.status == DiffStatus.changed)

/-- `compute_propagated_change_scores.recursive_score`, fueled for
termination (the visited set bounds the real recursion).  Faithful to
the source, which takes the whole registry as the "children" list
(`child_ids = [child_id for child_id in baseTools.instances]`) and then
resolves each entry by passing the container object itself to
`get_instance_by_id`, i.e. looks up `str(child)` (`strOfObj`), not an
id. -/
def recursive_score (instances : List Nat) (idOf strOfObj : Nat → String)
    (container_delta : List (String × List (String × DiffEntry))) :
    Nat → Nat → List String → Nat × List String
  | 0, _, visited => (0, visited)
  | fuel + 1, container, visited =>
    if visited.contains (idOf container) then (0, visited)
    else
      instances.foldl (fun acc child_id =>
        match get_instance_by_id instances idOf (strOfObj child_id) with
        | some child =>
            let r := recursive_score instances idOf strOfObj container_delta fuel child acc.2
            (acc.1 + r.1, r.2)
        | none => acc)
        (count_own_changes ((plookup container_delta (idOf container)).getD []),
          idOf container :: visited)

/-- `StateTools.compute_propagated_change_scores`: score every container
in the registry with a fresh visited set. -/
def compute_propagated_change_scores (instances : List Nat) (idOf strOfObj : Nat → String)
    (container_delta : List (String × List (String × DiffEntry))) : List (String × Nat) :=
  instances.foldl (fun scores container =>
    pyInsert scores (idOf container)
      (recursive_score instances idOf strOfObj container_delta
        (instances.length + 1) container []).1) []

/-- The specification's scorer, for comparison with the code: a node's
own change count plus the propagated scores of the node's current
children, with a visited set so that every node contributes at most
once. -/
def propagated_score_spec (children : Nat → List Nat) (idOf : Nat → String)
    (container_delta : List (String × List (String × DiffEntry))) :
    Nat → Nat → List String → Nat × List String
  | 0, _, visited => (0, visited)
  | fuel + 1, node, visited =>
    if visited.contains (idOf node) then (0, visited)
    else
      (children node).foldl (fun acc child =>
        let r := propagated_score_spec children idOf container_delta fuel child acc.2
        (acc.1 + r.1, r.2))
        (count_own_changes ((plookup container_delta (idOf node)).getD []),
          idOf node :: visited)

/-- A chain graph 0 → 1 → 2 → 3 → 4 → 5 → 6. -/
def chainC : Nat → List Nat := fun i => if i < 6 then [i + 1] else []

/-- A two-node graph where node 1 has child 0, making 1 an ancestor of 0. -/
def cycChildren : Nat → List Nat := fun n => if n == 1 then [0] else []

/-- Registry ids for the revert failing input: the single object 7 has id `"C"`. -/
def idOfC2 : Nat → String := fun _ => "C"

/-- The source snapshot for the revert failing input: child `C` with
position `"supports"`. -/
def snapAC2 : Snapshot := [("C", 7, Rel.rstr "supports")]

/-- Ids for the scoring failing input: object 0 is `"P"`, object 1 is `"C"`. -/
def idOfPC : Nat → String := fun n => if n == 0 then "P" else "C"

/-- The default `str(object)` representation, never equal to any stored id. -/
def strObjPC : Nat → String := fun _ => "<ConceptContainer object>"

/-- The real parent/child relation of the scoring failing input:
`P` (object 0) has the single child `C` (object 1). -/
def childrenPC : Nat → List Nat := fun n => if n == 0 then [1] else []

/-- A diff map with exactly one added entry, under child `C`'s id. -/
def deltaC3 : List (String × List (String × DiffEntry)) :=
  [("C", [("x", ⟨.added, "e", some [("label", "e")], none⟩)])]

/-- Source snapshot for the C4 witness. -/
def snapA4 : Snapshot := [("x", 1, Rel.rstr "p"), ("y", 2, Rel.rdict [("label", "q")])]

/-- Target snapshot for the C4 witness. -/
def snapB4 : Snapshot := [("y", 2, Rel.rstr "q2"), ("z", 3, Rel.rnone)]

/-- Node for the C4 witness, holding both snapshots. -/
def nodeC4 : NodeState := ⟨[], [("s", snapA4), ("t", snapB4)], some "s"⟩

/-- Source snapshot for the C9 witness: child `y` has a label-less dict. -/
def snapA9 : Snapshot := [("y", 2, Rel.rdict [("k", "1")])]

/-- Target snapshot for the C9 witness: `y` changed to another label-less dict. -/
def snapB9 : Snapshot := [("y", 2, Rel.rdict [("j", "2")])]

/-- Node for the C9 witness. -/
def nodeC9 : NodeState := ⟨[], [("s", snapA9), ("t", snapB9)], some "s"⟩

/-- Node for the C10 witness: a single stored snapshot named `"only"`. -/
def nodeC10 : NodeState := ⟨[], [("only", [("w", 4, Rel.rstr "lbl")])], some "base"⟩

/-- Registry ids for the C5 fixtures: the single object 4 has id `"k4"`. -/
def idOfC5 : Nat → String := fun _ => "k4"

/-- Node for the C5 counterexample: one registered child with the falsy
position `""`. -/
def nodeC5 : NodeState := ⟨[(4, Rel.rstr "")], [], some "A"⟩

/-- Node for the C5 amended witness: one registered child with a truthy
position. -/
def nodeC5w : NodeState := ⟨[(4, Rel.rstr "s")], [], none⟩

/-- Registry ids for the C1 counterexample: object 11 has id `"C"`. -/
def idOfC1 : Nat → String := fun n => if n == 11 then "C" else "Z"

/-- C1 counterexample source snapshot: child `C` with bare-string
position `"x"`. -/
def snapA1 : Snapshot := [("C", 11, Rel.rstr "x")]

/-- C1 counterexample target snapshot: `C` changed to bare string `"y"`. -/
def snapB1 : Snapshot := [("C", 11, Rel.rstr "y")]

/-- Registry ids for the C1 witness (the spec's example): object 1 is
`B`, object 2 is `C`, object 3 is `D`. -/
def idOfW : Nat → String := fun n => if n == 1 then "B" else if n == 2 then "C" else "D"

/-- The spec example's base snapshot: `[(B, "supports"), (C, "blocks")]`. -/
def snapAW : Snapshot := [("B", 1, Rel.rstr "supports"), ("C", 2, Rel.rstr "blocks")]

/-- The spec example's revised snapshot: C removed, D added with label
`"blocks-alt"`. -/
def snapBW : Snapshot := [("B", 1, Rel.rstr "supports"), ("D", 3, Rel.rstr "blocks-alt")]

/-- The diff dict of the spec example, keyed to node id `"n"`. -/
def diffsW : List (String × List (String × DiffEntry)) :=
  [("n", compareStates snapAW snapBW)]

theorem dlookup_isSome_of_mem {m : List (String × String)} {kv : String × String}
    (h : kv ∈ m) : (dlookup m kv.1).isSome := by
  induction m with
  | nil => cases h
  | cons a t ih =>
    rcases List.mem_cons.mp h with h | h
    · subst h
      simp [dlookup]
    · unfold dlookup
      by_cases ha : (a.1 == kv.1)
      · simp [ha]
      · simp only [ha, if_false]
        exact ih h

theorem dictEq_iff (m1 m2 : List (String × String)) :
    dictEq m1 m2 = true ↔ ∀ k, dlookup m1 k = dlookup m2 k := by
  constructor
  · intro h k
    unfold dictEq at h
    rw [Bool.and_eq_true, List.all_eq_true, List.all_eq_true] at h
    cases h1 : dlookup m1 k with
    | some v =>
      have hmem : ∃ kv ∈ m1, kv.1 = k := by
        clear h
        induction m1 with
        | nil => simp [dlookup] at h1
        | cons a t ih =>
          unfold dlookup at h1
          by_cases ha : (a.1 == k)
          · exact ⟨a, List.mem_cons_self a t, eq_of_beq ha⟩
          · simp only [ha, if_false] at h1
            rcases ih h1 with ⟨kv, hkv, hk⟩
            exact ⟨kv, List.mem_cons_of_mem a hkv, hk⟩
      rcases hmem with ⟨kv, hkv, hk⟩
      have h2 := h.1 kv hkv
      rw [hk, h1] at h2
      exact (eq_of_beq h2).symm
    | none =>
      cases h2 : dlookup m2 k with
      | none => rfl
      | some v =>
        have hmem : ∃ kv ∈ m2, kv.1 = k := by
          clear h
          induction m2 with
          | nil => simp [dlookup] at h2
          | cons a t ih =>
            unfold dlookup at h2
            by_cases ha : (a.1 == k)
            · exact ⟨a, List.mem_cons_self a t, eq_of_beq ha⟩
            · simp only [ha, if_false] at h2
              rcases ih h2 with ⟨kv, hkv, hk⟩
              exact ⟨kv, List.mem_cons_of_mem a hkv, hk⟩
        rcases hmem with ⟨kv, hkv, hk⟩
        have h3 := h.2 kv hkv
        rw [hk, h1, h2] at h3
        simp at h3
  · intro h
    unfold dictEq
    rw [Bool.and_eq_true, List.all_eq_true, List.all_eq_true]
    constructor
    · intro kv _
      rw [h kv.1]
      exact beq_self_eq_true _
    · intro kv _
      rw [h kv.1]
      exact beq_self_eq_true _

theorem dictEq_refl (m : List (String × String)) : dictEq m m = true :=
  (dictEq_iff m m).mpr (fun _ => rfl)

theorem dictEq_symm {m1 m2 : List (String × String)} (h : dictEq m1 m2 = true) :
    dictEq m2 m1 = true :=
  (dictEq_iff m2 m1).mpr (fun k => ((dictEq_iff m1 m2).mp h k).symm)

theorem check_relationship_rdict (m : List (String × String)) :
    check_relationship (.rdict m) =
      if (dlookup m "label").isSome then m else [("label", "")] := rfl

theorem check_relationship_has_label (r : Rel) :
    (dlookup (check_relationship r) "label").isSome := by
  cases r with
  | rnone => rfl
  | rstr s => rfl
  | rdict m =>
    rw [check_relationship_rdict]
    by_cases h : (dlookup m "label").isSome
    · rwa [if_pos h]
    · rw [if_neg h]; rfl

theorem check_relationship_idem (r : Rel) :
    check_relationship (.rdict (check_relationship r)) = check_relationship r := by
  rw [check_relationship_rdict, if_pos (check_relationship_has_label r)]

theorem relEq_check {r s : Rel} (h : relEq r s = true) :
    dictEq (check_relationship r) (check_relationship s) = true := by
  cases r with
  | rnone => cases s with
    | rnone => exact dictEq_refl _
    | rstr b => simp [relEq] at h
    | rdict b => simp [relEq] at h
  | rstr a => cases s with
    | rnone => simp [relEq] at h
    | rstr b =>
      simp only [relEq] at h
      rw [show a = b from eq_of_beq h]
      exact dictEq_refl _
    | rdict b => simp [relEq] at h
  | rdict a => cases s with
    | rnone => simp [relEq] at h
    | rstr b => simp [relEq] at h
    | rdict b =>
      simp only [relEq] at h
      have hl := (dictEq_iff a b).mp h
      rw [check_relationship_rdict, check_relationship_rdict]
      by_cases ha : (dlookup a "label").isSome
      · have hb : (dlookup b "label").isSome := by rw [← hl]; exact ha
        rw [if_pos ha, if_pos hb]; exact h
      · have hb : ¬ (dlookup b "label").isSome := by rw [← hl]; exact ha
        rw [if_neg ha, if_neg hb]
        exact dictEq_refl _

theorem plookup_nil {β : Type} (k : String) : plookup ([] : List (String × β)) k = none := rfl

theorem plookup_cons {β : Type} (a : String × β) (l : List (String × β)) (k : String) :
    plookup (a :: l) k = if a.1 == k then some a.2 else plookup l k := rfl

theorem plookup_append {β : Type} (l1 l2 : List (String × β)) (k : String) :
    plookup (l1 ++ l2) k = orElseO (plookup l1 k) (plookup l2 k) := by
  induction l1 with
  | nil => simp [plookup, orElseO]
  | cons a t ih =>
    by_cases ha : (a.1 == k)
    · simp [plookup, ha, orElseO]
    · simp [plookup, ha, ih]

theorem plookup_isSome_iff {β : Type} {l : List (String × β)} {k : String} :
    (plookup l k).isSome ↔ k ∈ l.map (fun kv => kv.1) := by
  induction l with
  | nil => simp [plookup]
  | cons a t ih =>
    by_cases ha : (a.1 == k)
    · have : a.1 = k := eq_of_beq ha
      simp [plookup, ha, this]
    · have : ¬ a.1 = k := by simpa using ha
      simp [plookup, ha, ih, this]
      tauto

theorem plookup_eq_none_of_not_mem {β : Type} {l : List (String × β)} {k : String}
    (h : k ∉ l.map (fun kv => kv.1)) : plookup l k = none := by
  cases hp : plookup l k with
  | none => rfl
  | some v =>
    exact absurd (plookup_isSome_iff.mp (by rw [hp]; rfl)) h

theorem pyInsert_of_fresh {β : Type} {d : List (String × β)} {k : String} {v : β}
    (h : k ∉ d.map (fun kv => kv.1)) : pyInsert d k v = d ++ [(k, v)] := by
  unfold pyInsert
  rw [if_neg]
  intro hc
  rcases List.any_eq_true.mp hc with ⟨kv, hkv, hk⟩
  exact h (List.mem_map.mpr ⟨kv, hkv, eq_of_beq hk⟩)

theorem pyInsert_keys {β : Type} (d : List (String × β)) (k : String) (v : β) :
    (pyInsert d k v).map (fun kv => kv.1) =
      if k ∈ d.map (fun kv => kv.1) then d.map (fun kv => kv.1)
      else d.map (fun kv => kv.1) ++ [k] := by
  unfold pyInsert
  by_cases hm : k ∈ d.map (fun kv => kv.1)
  · rcases List.mem_map.mp hm with ⟨kv0, hkv0, hk0⟩
    rw [if_pos (List.any_eq_true.mpr ⟨kv0, hkv0, by rw [hk0]; exact beq_self_eq_true _⟩), if_pos hm]
    rw [List.map_map]
    apply List.map_congr_left
    intro a _
    by_cases ha : a.1 = k
    · simp [ha]
    · simp [ha]
  · rw [if_neg, if_neg hm]
    · simp
    · intro hc
      rcases List.any_eq_true.mp hc with ⟨kv, hkv, hk⟩
      exact hm (List.mem_map.mpr ⟨kv, hkv, eq_of_beq hk⟩)

theorem foldl_pyInsert_fresh {β : Type} :
    ∀ (l acc : List (String × β)),
      (∀ kv ∈ l, kv.1 ∉ acc.map (fun kv => kv.1)) →
      (l.map (fun kv => kv.1)).Nodup →
      l.foldl (fun d kv => pyInsert d kv.1 kv.2) acc = acc ++ l := by
  intro l
  induction l with
  | nil => intro acc _ _; simp
  | cons a t ih =>
    intro acc hfresh hnd
    have hstep : pyInsert acc a.1 a.2 = acc ++ [a] := by
      rw [pyInsert_of_fresh (hfresh a (List.mem_cons_self a t))]
    simp only [List.foldl_cons, hstep]
    rw [ih (acc ++ [a]) ?hf ?hn]
    · rw [List.append_assoc]; rfl
    case hf =>
      intro kv hkv
      rw [List.map_append, List.mem_append]
      rintro (hin | hin)
      · exact hfresh kv (List.mem_cons_of_mem a hkv) hin
      · have heq : kv.1 = a.1 := by simpa using hin
        have hna : a.1 ∉ t.map (fun kv => kv.1) := (List.nodup_cons.mp hnd).1
        exact hna (by rw [← heq]; exact List.mem_map.mpr ⟨kv, hkv, rfl⟩)
    case hn => exact (List.nodup_cons.mp hnd).2

theorem pyDictOf_eq_self {β : Type} {l : List (String × β)}
    (h : (l.map (fun kv => kv.1)).Nodup) : pyDictOf l = l := by
  unfold pyDictOf
  rw [foldl_pyInsert_fresh l [] (by simp) h]
  rfl

theorem foldl_pyInsert_keys_nodup {β : Type} :
    ∀ (l : List (String × β)) (acc : List (String × β)),
      (acc.map (fun kv => kv.1)).Nodup →
      ((l.foldl (fun d kv => pyInsert d kv.1 kv.2) acc).map (fun kv => kv.1)).Nodup := by
  intro l
  induction l with
  | nil => intro acc h; simpa using h
  | cons a t ih =>
    intro acc hacc
    simp only [List.foldl_cons]
    apply ih
    rw [pyInsert_keys]
    by_cases hm : a.1 ∈ acc.map (fun kv => kv.1)
    · rwa [if_pos hm]
    · rw [if_neg hm, List.nodup_append]
      refine ⟨hacc, List.nodup_singleton _, ?_⟩
      intro x hx hx'
      have hxa : x = a.1 := by simpa using hx'
      exact hm (hxa ▸ hx)

theorem pyDictOf_keys_nodup {β : Type} (l : List (String × β)) :
    ((pyDictOf l).map (fun kv => kv.1)).Nodup :=
  foldl_pyInsert_keys_nodup l [] (by simp)

/-- A generic accumulation of fresh-keyed dict inserts: folding a
skip-or-insert step over a list with distinct keys is an append of the
generated entries. -/
theorem foldl_pyInsert_build {α γ : Type} (key : α → String) (g : α → Option γ) :
    ∀ (l : List α) (acc : List (String × γ)),
      (∀ x ∈ l, (g x).isSome → key x ∉ acc.map (fun kv => kv.1)) →
      (l.map key).Nodup →
      l.foldl (insStep key g) acc
        = acc ++ l.filterMap (fun x => (g x).map (fun v => (key x, v))) := by
  intro l
  induction l with
  | nil => intro acc _ _; simp
  | cons a t ih =>
    intro acc hfresh hnd
    simp only [List.foldl_cons, List.filterMap_cons]
    cases hga : g a with
    | none =>
      have hstep : insStep key g acc a = acc := by unfold insStep; rw [hga]
      rw [hstep, ih acc (fun x hx hs => hfresh x (List.mem_cons_of_mem a hx) hs)
        (List.nodup_cons.mp hnd).2]
      simp [hga]
    | some v =>
      have hstep : insStep key g acc a = acc ++ [(key a, v)] := by
        unfold insStep
        rw [hga]
        exact pyInsert_of_fresh (hfresh a (List.mem_cons_self a t) (by rw [hga]; rfl))
      rw [hstep, ih (acc ++ [(key a, v)]) ?hf (List.nodup_cons.mp hnd).2]
      · simp [hga]
      case hf =>
        intro x hx hs
        rw [List.map_append, List.mem_append]
        rintro (hin | hin)
        · exact hfresh x (List.mem_cons_of_mem a hx) hs hin
        · have heq : key x = key a := by simpa using hin
          have hna : key a ∉ t.map key := (List.nodup_cons.mp hnd).1
          exact hna (by rw [← heq]; exact List.mem_map.mpr ⟨x, hx, rfl⟩)

theorem filterMap_keyed_keys_sublist {β γ : Type} (l : List (String × β)) (g : String × β → Option γ) :
    ((l.filterMap (fun kv => (g kv).map (fun e => (kv.1, e)))).map (fun kv => kv.1)).Sublist
      (l.map (fun kv => kv.1)) := by
  induction l with
  | nil => simp
  | cons a t ih =>
    cases hga : g a with
    | none =>
      simp only [List.filterMap_cons, hga, Option.map_none', List.map_cons]
      exact ih.cons a.1
    | some e =>
      simp only [List.filterMap_cons, hga, Option.map_some', List.map_cons]
      exact ih.cons₂ a.1

theorem mem_filterMap_keyed_keys {β γ : Type} {l : List (String × β)} {g : String × β → Option γ}
    {k : String}
    (h : k ∈ (l.filterMap (fun kv => (g kv).map (fun e => (kv.1, e)))).map (fun kv => kv.1)) :
    ∃ kv ∈ l, kv.1 = k ∧ (g kv).isSome := by
  rcases List.mem_map.mp h with ⟨y, hy, hyk⟩
  rcases List.mem_filterMap.mp hy with ⟨kv, hkv, hg⟩
  cases hga : g kv with
  | none => rw [hga] at hg; simp at hg
  | some e =>
    rw [hga] at hg
    simp only [Option.map_some'] at hg
    have hy2 : y = (kv.1, e) := (Option.some.inj hg).symm
    refine ⟨kv, hkv, ?_, by rw [hga]; rfl⟩
    rw [← hyk, hy2]

theorem plookup_filterMap_keyed {β γ : Type} (l : List (String × β)) (g : String × β → Option γ)
    (hnd : (l.map (fun kv => kv.1)).Nodup) (cid : String) :
    plookup (l.filterMap (fun kv => (g kv).map (fun e => (kv.1, e)))) cid
      = match plookup l cid with
        | none => none
        | some v => g (cid, v) := by
  induction l with
  | nil => simp [plookup]
  | cons a t ih =>
    by_cases ha : a.1 = cid
    · have hbeq : (a.1 == cid) = true := beq_iff_eq.mpr ha
      have hL : plookup (a :: t) cid = some a.2 := by
        rw [plookup_cons, if_pos hbeq]
      rw [hL]
      show _ = g (cid, a.2)
      rw [show ((cid : String), a.2) = a from by rw [← ha]]
      cases hg : g a with
      | some e =>
        simp only [List.filterMap_cons, hg, Option.map_some']
        rw [plookup_cons, if_pos hbeq]
      | none =>
        simp only [List.filterMap_cons, hg, Option.map_none']
        apply plookup_eq_none_of_not_mem
        intro hc
        rcases mem_filterMap_keyed_keys hc with ⟨kv, hkv, hk, _⟩
        have hna : a.1 ∉ t.map (fun kv => kv.1) := (List.nodup_cons.mp hnd).1
        exact hna (by rw [ha, ← hk]; exact List.mem_map.mpr ⟨kv, hkv, rfl⟩)
    · have hbeq : (a.1 == cid) = false := by simpa using ha
      have hne : ¬ ((a.1 == cid) = true) := by simp [hbeq]
      have hL : plookup (a :: t) cid = plookup t cid := by
        rw [plookup_cons, if_neg hne]
      rw [hL, ← ih (List.nodup_cons.mp hnd).2]
      cases hg : g a with
      | none => simp only [List.filterMap_cons, hg, Option.map_none']
      | some e =>
        simp only [List.filterMap_cons, hg, Option.map_some']
        rw [plookup_cons, if_neg hne]

/-- `compareStates` written as the append of the target-side entries
(added/changed, in target-dict order) and the source-side entries
(removed, in source-dict order). -/
theorem compareStates_eq (source target : Snapshot) :
    compareStates source target =
      (pyDictOf (projSnap target)).filterMap (fun kv =>
        (targetEntry (pyDictOf (projSnap source)) kv).map (fun e => (kv.1, e)))
      ++ (pyDictOf (projSnap source)).filterMap (fun kv =>
        (sourceEntry (pyDictOf (projSnap target)) kv).map (fun e => (kv.1, e))) := by
  have h1 : (fun (differences : List (String × DiffEntry)) (kv : String × Rel) =>
      match plookup (pyDictOf (projSnap source)) kv.1 with
      | none =>
          pyInsert differences kv.1
            ⟨.added, labelOf (check_relationship kv.2), some (check_relationship kv.2), none⟩
      | some source_relationship =>
          if dictEq (check_relationship source_relationship) (check_relationship kv.2) then
            differences
          else
            pyInsert differences kv.1
              ⟨.changed,
                labelOf (check_relationship source_relationship) ++ " -> " ++
                  labelOf (check_relationship kv.2),
                some (check_relationship kv.2), some (check_relationship source_relationship)⟩)
      = insStep Prod.fst (targetEntry (pyDictOf (projSnap source))) := by
    funext differences kv
    unfold insStep targetEntry diffOfPair
    cases hp : plookup (pyDictOf (projSnap source)) kv.1 with
    | none => rfl
    | some sr =>
      by_cases hd : dictEq (check_relationship sr) (check_relationship kv.2)
      · simp [hd]
      · simp [hd]
  have h2 : (fun (differences : List (String × DiffEntry)) (kv : String × Rel) =>
      match plookup (pyDictOf (projSnap target)) kv.1 with
      | some _ => differences
      | none =>
          pyInsert differences kv.1
            ⟨.removed, labelOf (check_relationship kv.2), none,
              some (check_relationship kv.2)⟩)
      = insStep Prod.fst (sourceEntry (pyDictOf (projSnap target))) := by
    funext differences kv
    unfold insStep sourceEntry diffOfPair
    cases hp : plookup (pyDictOf (projSnap target)) kv.1 with
    | none => rfl
    | some _ => rfl
  show (pyDictOf (projSnap source)).foldl _ ((pyDictOf (projSnap target)).foldl _ []) = _
  rw [h1, h2]
  rw [foldl_pyInsert_build Prod.fst (targetEntry (pyDictOf (projSnap source)))
    (pyDictOf (projSnap target)) [] (by simp) (pyDictOf_keys_nodup _)]
  rw [List.nil_append]
  rw [foldl_pyInsert_build Prod.fst (sourceEntry (pyDictOf (projSnap target)))
    (pyDictOf (projSnap source)) _ ?hfresh (pyDictOf_keys_nodup _)]
  case hfresh =>
    intro kv hkv hs hmem
    have hnone : plookup (pyDictOf (projSnap target)) kv.1 = none := by
      unfold sourceEntry at hs
      cases hp : plookup (pyDictOf (projSnap target)) kv.1 with
      | none => rfl
      | some _ => rw [hp] at hs; simp at hs
    rcases mem_filterMap_keyed_keys hmem with ⟨kv', hkv', hk', _⟩
    have : (plookup (pyDictOf (projSnap target)) kv.1).isSome :=
      plookup_isSome_iff.mpr (by rw [← hk']; exact List.mem_map.mpr ⟨kv', hkv', rfl⟩)
    rw [hnone] at this
    exact Bool.noConfusion this

/-- Per-id characterization of `compare_two_states` on two snapshots
with duplicate-free child ids. -/
theorem compareStates_lookup (source target : Snapshot)
    (hs : ((projSnap source).map (fun kv => kv.1)).Nodup)
    (ht : ((projSnap target).map (fun kv => kv.1)).Nodup) (cid : String) :
    plookup (compareStates source target) cid
      = diffOfPair (plookup (projSnap source) cid) (plookup (projSnap target) cid) := by
  rw [compareStates_eq, pyDictOf_eq_self hs, pyDictOf_eq_self ht, plookup_append]
  rw [plookup_filterMap_keyed _ _ ht, plookup_filterMap_keyed _ _ hs]
  cases hpt : plookup (projSnap target) cid with
  | some r =>
    cases hps : plookup (projSnap source) cid with
    | none => simp [targetEntry, sourceEntry, diffOfPair, hps, orElseO]
    | some sr =>
      by_cases hd : dictEq (check_relationship sr) (check_relationship r)
      · simp [targetEntry, sourceEntry, diffOfPair, hps, hpt, hd, orElseO]
      · simp [targetEntry, sourceEntry, diffOfPair, hps, hpt, hd, orElseO]
  | none =>
    cases hps : plookup (projSnap source) cid with
    | none => simp [diffOfPair, orElseO]
    | some sr => simp [targetEntry, sourceEntry, diffOfPair, hps, hpt, orElseO]

/-- The diff dict has duplicate-free keys: at most one entry per child id. -/
theorem compareStates_keys_nodup (source target : Snapshot) :
    ((compareStates source target).map (fun kv => kv.1)).Nodup := by
  rw [compareStates_eq, List.map_append, List.nodup_append]
  refine ⟨(filterMap_keyed_keys_sublist _ _).nodup (pyDictOf_keys_nodup _),
    (filterMap_keyed_keys_sublist _ _).nodup (pyDictOf_keys_nodup _), ?_⟩
  intro k hkT hkS
  rcases mem_filterMap_keyed_keys hkS with ⟨kv, _, hk, hs⟩
  have hnone : plookup (pyDictOf (projSnap target)) kv.1 = none := by
    unfold sourceEntry at hs
    cases hp : plookup (pyDictOf (projSnap target)) kv.1 with
    | none => rfl
    | some _ => rw [hp] at hs; simp at hs
  have hmemT : k ∈ (pyDictOf (projSnap target)).map (fun kv => kv.1) :=
    (filterMap_keyed_keys_sublist _ _).subset hkT
  have : (plookup (pyDictOf (projSnap target)) kv.1).isSome :=
    plookup_isSome_iff.mpr (hk ▸ hmemT)
  rw [hnone] at this
  exact Bool.noConfusion this

theorem get_instance_by_id_idOf {instances : List Nat} {idOf : Nat → String} {key : String}
    {o : Nat} (h : get_instance_by_id instances idOf key = some o) : idOf o = key := by
  unfold get_instance_by_id at h
  have hp := List.find?_some h
  exact eq_of_beq hp

/-- The embedding satisfies the source's recursion equation verbatim. -/
theorem checkIsDescendent_unfold (children : Nat → List Nat) (b a depth_limit current_depth : Nat) :
    checkIsDescendent children b a depth_limit current_depth =
      if depth_limit < current_depth then false
      else (children b).any (fun child =>
        child == a || checkIsDescendent children child a depth_limit (current_depth + 1)) := by
  unfold checkIsDescendent
  by_cases h : depth_limit < current_depth
  · have hf : depth_limit + 1 - current_depth = 0 := by omega
    rw [hf, if_pos h]
    rfl
  · have hf : depth_limit + 1 - current_depth = (depth_limit + 1 - (current_depth + 1)) + 1 := by
      omega
    rw [hf]
    rfl

theorem checkIsDescendentAux_path {children : Nat → List Nat} {a depth_limit : Nat} :
    ∀ (fuel b current_depth : Nat),
      checkIsDescendentAux children a depth_limit fuel b current_depth = true →
      ∃ n, 1 ≤ n ∧ n ≤ fuel ∧ hasPathLen children n b a = true := by
  intro fuel
  induction fuel with
  | zero => intro b cd h; exact absurd h (by simp [checkIsDescendentAux])
  | succ fuel ih =>
    intro b cd h
    unfold checkIsDescendentAux at h
    by_cases hg : depth_limit < cd
    · rw [if_pos hg] at h; exact absurd h (by simp)
    · rw [if_neg hg] at h
      rcases List.any_eq_true.mp h with ⟨child, hchild, hc⟩
      rcases Bool.or_eq_true_iff.mp hc with hc | hc
      · refine ⟨1, le_refl 1, by omega, ?_⟩
        show (children b).any (fun c => hasPathLen children 0 c a) = true
        exact List.any_eq_true.mpr ⟨child, hchild, hc⟩
      · rcases ih child (cd + 1) hc with ⟨n, h1, h2, hp⟩
        refine ⟨n + 1, by omega, by omega, ?_⟩
        show (children b).any (fun c => hasPathLen children n c a) = true
        exact List.any_eq_true.mpr ⟨child, hchild, hp⟩

theorem elookup_cons (idOf : Nat → String) (e : Nat × Rel) (E : List (Nat × Rel)) (cid : String) :
    elookup idOf (e :: E) cid =
      if idOf e.1 == cid then some e.2 else elookup idOf E cid := rfl

theorem elookup_append (idOf : Nat → String) (E1 E2 : List (Nat × Rel)) (cid : String) :
    elookup idOf (E1 ++ E2) cid = orElseO (elookup idOf E1 cid) (elookup idOf E2 cid) := by
  induction E1 with
  | nil => simp [elookup, orElseO]
  | cons e t ih =>
    by_cases he : (idOf e.1 == cid)
    · simp [elookup, he, orElseO]
    · simp [elookup, he, ih]

theorem elookup_setPosition_other {idOf : Nat → String} {c : Nat} {cid : String}
    (h : idOf c ≠ cid) (E : List (Nat × Rel)) (p : Rel) :
    elookup idOf (setPosition E c p) cid = elookup idOf E cid := by
  induction E with
  | nil =>
    have : (idOf c == cid) = false := by simpa using h
    simp [setPosition, elookup, this]
  | cons e t ih =>
    by_cases he : (e.1 == c)
    · have he' : e.1 = c := eq_of_beq he
      have : (idOf e.1 == cid) = false := by simpa [he'] using h
      simp [setPosition, he, elookup_cons, this, he', h]
    · unfold setPosition
      rw [if_neg (by simpa using he)]
      rw [elookup_cons, elookup_cons]
      by_cases hm : (idOf e.1 == cid)
      · simp [hm]
      · simp [hm, ih]

theorem elookup_setPosition_self {idOf : Nat → String} {c : Nat} {E : List (Nat × Rel)}
    (huniq : ∀ e ∈ E, idOf e.1 = idOf c → e.1 = c) (p : Rel) :
    elookup idOf (setPosition E c p) (idOf c) = some p := by
  induction E with
  | nil => simp [setPosition, elookup]
  | cons e t ih =>
    by_cases he : (e.1 == c)
    · have he' : e.1 = c := eq_of_beq he
      unfold setPosition
      rw [if_pos (by simpa using he)]
      rw [elookup_cons]
      simp [he']
    · unfold setPosition
      rw [if_neg (by simpa using he)]
      rw [elookup_cons]
      have hne : (idOf e.1 == idOf c) = false := by
        by_contra hc
        have : idOf e.1 = idOf c := eq_of_beq (by
          cases hb : (idOf e.1 == idOf c) with
          | true => rfl
          | false => exact absurd hb hc)
        exact absurd (huniq e (List.mem_cons_self e t) this) (by simpa using he)
      rw [hne, if_neg Bool.false_ne_true]
      exact ih (fun x hx => huniq x (List.mem_cons_of_mem e hx))

theorem elookup_remove_other {idOf : Nat → String} {c : Nat} {cid : String}
    (h : idOf c ≠ cid) (E : List (Nat × Rel)) :
    elookup idOf (remove_container_edges E c) cid = elookup idOf E cid := by
  induction E with
  | nil => rfl
  | cons e t ih =>
    unfold remove_container_edges at ih ⊢
    by_cases he : e.1 = c
    · have hf : (e.1 != c) = false := by simp [he]
      rw [List.filter_cons, hf]
      have : (idOf e.1 == cid) = false := by simpa [he] using h
      rw [elookup_cons, this]
      simpa using ih
    · have hf : (e.1 != c) = true := by simp [he]
      rw [List.filter_cons, hf]
      simp only [if_true]
      rw [elookup_cons, elookup_cons]
      by_cases hm : (idOf e.1 == cid)
      · simp [hm]
      · simp [hm]
        exact ih

theorem elookup_remove_self {idOf : Nat → String} {c : Nat} {E : List (Nat × Rel)}
    (huniq : ∀ e ∈ E, idOf e.1 = idOf c → e.1 = c) :
    elookup idOf (remove_container_edges E c) (idOf c) = none := by
  induction E with
  | nil => rfl
  | cons e t ih =>
    unfold remove_container_edges at ih ⊢
    by_cases he : e.1 = c
    · have hf : (e.1 != c) = false := by simp [he]
      rw [List.filter_cons, hf]
      simpa using ih (fun x hx => huniq x (List.mem_cons_of_mem e hx))
    · have hf : (e.1 != c) = true := by simp [he]
      rw [List.filter_cons, hf]
      simp only [if_true]
      rw [elookup_cons]
      have hne : (idOf e.1 == idOf c) = false := by
        by_contra hc
        have hb : idOf e.1 = idOf c := by
          cases hb : (idOf e.1 == idOf c) with
          | true => exact eq_of_beq hb
          | false => exact absurd hb hc
        exact he (huniq e (List.mem_cons_self e t) hb)
      rw [hne, if_neg Bool.false_ne_true]
      exact ih (fun x hx => huniq x (List.mem_cons_of_mem e hx))

theorem setPosition_mem {E : List (Nat × Rel)} {c : Nat} {p : Rel} :
    ∀ x ∈ setPosition E c p, x ∈ E ∨ x.1 = c := by
  induction E with
  | nil =>
    intro x hx
    rcases List.mem_singleton.mp hx with h
    right; rw [h]
  | cons e t ih =>
    intro x hx
    unfold setPosition at hx
    by_cases he : (e.1 == c)
    · rw [if_pos he] at hx
      rcases List.mem_cons.mp hx with h | h
      · right; rw [h]; exact eq_of_beq he
      · left; exact List.mem_cons_of_mem e h
    · rw [if_neg he] at hx
      rcases List.mem_cons.mp hx with h | h
      · left; rw [h]; exact List.mem_cons_self e t
      · rcases ih x h with h' | h'
        · left; exact List.mem_cons_of_mem e h'
        · right; exact h'

theorem edgesResolved_ok {instances : List Nat} {idOf : Nat → String} {cid : String} {c : Nat}
    (hres : get_instance_by_id instances idOf cid = some c) :
    get_instance_by_id instances idOf (idOf c) = some c := by
  rw [get_instance_by_id_idOf hres]
  exact hres

theorem edgesResolved_uniq {instances : List Nat} {idOf : Nat → String}
    {E : List (Nat × Rel)} {cid : String} {c : Nat}
    (hE : EdgesResolved instances idOf E)
    (hres : get_instance_by_id instances idOf cid = some c) :
    ∀ e ∈ E, idOf e.1 = idOf c → e.1 = c := by
  intro e he hid
  have h1 := hE e he
  rw [hid, get_instance_by_id_idOf hres, hres] at h1
  exact (Option.some.inj h1).symm

theorem orElseO_none {β : Type} (x : Option β) : orElseO x none = x := by
  cases x <;> rfl

theorem applyStep_resolved {instances : List Nat} {idOf : Nat → String} {E : List (Nat × Rel)}
    (kv : String × DiffEntry) (h : EdgesResolved instances idOf E) :
    EdgesResolved instances idOf (applyStep instances idOf E kv) := by
  unfold applyStep
  cases kv.2.status with
  | added =>
    unfold add_container_by_id
    cases hres : get_instance_by_id instances idOf kv.1 with
    | none => exact h
    | some c =>
      unfold add_container_edges
      intro x hx
      rcases List.mem_append.mp hx with hx | hx
      · exact h x hx
      · have : x = (c, Rel.rdict (kv.2.relationship_dict.getD [])) := List.mem_singleton.mp hx
        rw [this]
        exact edgesResolved_ok hres
  | changed =>
    cases hres : get_instance_by_id instances idOf kv.1 with
    | none => exact h
    | some c =>
      intro x hx
      rcases setPosition_mem x hx with hx' | hx'
      · exact h x hx'
      · rw [hx']
        exact edgesResolved_ok hres
  | removed =>
    unfold remove_container_by_id
    cases hres : get_instance_by_id instances idOf kv.1 with
    | none => exact h
    | some c =>
      intro x hx
      exact h x (List.mem_of_mem_filter hx)

theorem applyStep_elookup_other {instances : List Nat} {idOf : Nat → String}
    {E : List (Nat × Rel)} {kv : String × DiffEntry} {cid : String} (hne : kv.1 ≠ cid) :
    elookup idOf (applyStep instances idOf E kv) cid = elookup idOf E cid := by
  unfold applyStep
  cases kv.2.status with
  | added =>
    unfold add_container_by_id
    cases hres : get_instance_by_id instances idOf kv.1 with
    | none => rfl
    | some c =>
      unfold add_container_edges
      rw [elookup_append]
      have hid : idOf c = kv.1 := get_instance_by_id_idOf hres
      have hf : (idOf c == cid) = false := by
        rw [hid]
        simpa using hne
      rw [elookup_cons]
      simp only [hf, if_neg Bool.false_ne_true]
      rw [show elookup idOf [] cid = none from rfl, orElseO_none]
  | changed =>
    cases hres : get_instance_by_id instances idOf kv.1 with
    | none => rfl
    | some c =>
      exact elookup_setPosition_other (by rw [get_instance_by_id_idOf hres]; exact hne) E _
  | removed =>
    unfold remove_container_by_id
    cases hres : get_instance_by_id instances idOf kv.1 with
    | none => rfl
    | some c =>
      exact elookup_remove_other (by rw [get_instance_by_id_idOf hres]; exact hne) E

theorem applyStep_elookup_own {instances : List Nat} {idOf : Nat → String}
    {E : List (Nat × Rel)} (kv : String × DiffEntry) (h : EdgesResolved instances idOf E) :
    elookup idOf (applyStep instances idOf E kv) kv.1
      = applyEffect instances idOf kv.1 kv.2 (elookup idOf E kv.1) := by
  unfold applyStep applyEffect
  cases kv.2.status with
  | added =>
    unfold add_container_by_id
    cases hres : get_instance_by_id instances idOf kv.1 with
    | none => rfl
    | some c =>
      unfold add_container_edges
      rw [elookup_append]
      have hid : idOf c = kv.1 := get_instance_by_id_idOf hres
      have ht : (idOf c == kv.1) = true := by rw [hid]; exact beq_self_eq_true _
      rw [elookup_cons]
      simp [ht]
  | changed =>
    cases hres : get_instance_by_id instances idOf kv.1 with
    | none => rfl
    | some c =>
      have hid : idOf c = kv.1 := get_instance_by_id_idOf hres
      rw [← hid]
      exact elookup_setPosition_self (edgesResolved_uniq h hres) _
  | removed =>
    unfold remove_container_by_id
    cases hres : get_instance_by_id instances idOf kv.1 with
    | none => rfl
    | some c =>
      have hid : idOf c = kv.1 := get_instance_by_id_idOf hres
      rw [← hid]
      exact elookup_remove_self (edgesResolved_uniq h hres)

/-- Folding a per-entry step over a diff dict with distinct keys: the
final lookup of each child id is its own entry's effect on the initial
lookup, other ids being untouched. -/
theorem foldl_step_elookup {idOf : Nat → String}
    (step : List (Nat × Rel) → (String × DiffEntry) → List (Nat × Rel))
    (effect : String → DiffEntry → Option Rel → Option Rel)
    (P : List (Nat × Rel) → Prop)
    (hP : ∀ E kv, P E → P (step E kv))
    (hother : ∀ E kv cid, kv.1 ≠ cid → elookup idOf (step E kv) cid = elookup idOf E cid)
    (hown : ∀ E kv, P E → elookup idOf (step E kv) kv.1 = effect kv.1 kv.2 (elookup idOf E kv.1)) :
    ∀ (D : List (String × DiffEntry)) (E : List (Nat × Rel)), P E →
      (D.map (fun kv => kv.1)).Nodup → ∀ cid,
      elookup idOf (D.foldl step E) cid =
        match plookup D cid with
        | none => elookup idOf E cid
        | some d => effect cid d (elookup idOf E cid) := by
  intro D
  induction D with
  | nil => intro E _ _ cid; simp [plookup]
  | cons a t ih =>
    intro E hE hnd cid
    rw [List.foldl_cons]
    by_cases ha : a.1 = cid
    · have hbeq : (a.1 == cid) = true := beq_iff_eq.mpr ha
      have hnt : plookup t cid = none := by
        apply plookup_eq_none_of_not_mem
        intro hc
        exact absurd hc (by simpa [ha] using (List.nodup_cons.mp hnd).1)
      rw [ih (step E a) (hP E a hE) (List.nodup_cons.mp hnd).2 cid, hnt,
        plookup_cons, if_pos hbeq]
      have h1 := hown E a hE
      rw [ha] at h1
      exact h1
    · have hbeq : (a.1 == cid) = false := by simpa using ha
      rw [ih (step E a) (hP E a hE) (List.nodup_cons.mp hnd).2 cid,
        hother E a cid ha, plookup_cons, hbeq, if_neg Bool.false_ne_true]

theorem revert_foldlM_eq {instances : List Nat} {idOf : Nat → String} :
    ∀ (D : List (String × DiffEntry)) (E : List (Nat × Rel)),
      (∀ kv ∈ D, kv.2.status = .changed →
        (get_instance_by_id instances idOf kv.1).isSome) →
      D.foldlM (revertStep instances idOf) E
        = some (D.foldl (revertStepPure instances idOf) E) := by
  intro D
  induction D with
  | nil => intro E _; rfl
  | cons a t ih =>
    intro E h
    have hstep : revertStep instances idOf E a = some (revertStepPure instances idOf E a) := by
      unfold revertStep revertStepPure
      cases hst : a.2.status with
      | added => rfl
      | removed => rfl
      | changed =>
        unfold update_container_relationship
        cases hres : get_instance_by_id instances idOf a.1 with
        | some c => rfl
        | none =>
          have hsome := h a (List.mem_cons_self a t) hst
          rw [hres] at hsome
          exact absurd hsome (by simp)
    rw [List.foldlM_cons, hstep]
    show t.foldlM (revertStep instances idOf) (revertStepPure instances idOf E a) = _
    rw [List.foldl_cons]
    exact ih _ (fun kv hkv => h kv (List.mem_cons_of_mem a hkv))

theorem revertStepPure_resolved {instances : List Nat} {idOf : Nat → String}
    {E : List (Nat × Rel)} (kv : String × DiffEntry) (h : EdgesResolved instances idOf E) :
    EdgesResolved instances idOf (revertStepPure instances idOf E kv) := by
  unfold revertStepPure
  cases kv.2.status with
  | added =>
    unfold remove_container_by_id
    cases hres : get_instance_by_id instances idOf kv.1 with
    | none => exact h
    | some c => exact fun x hx => h x (List.mem_of_mem_filter hx)
  | changed =>
    cases hres : get_instance_by_id instances idOf kv.1 with
    | none => exact h
    | some c =>
      intro x hx
      rcases setPosition_mem x hx with hx' | hx'
      · exact h x hx'
      · rw [hx']
        exact edgesResolved_ok hres
  | removed =>
    unfold add_container_by_id
    cases hres : get_instance_by_id instances idOf kv.1 with
    | none => exact h
    | some c =>
      unfold add_container_edges
      intro x hx
      rcases List.mem_append.mp hx with hx | hx
      · exact h x hx
      · rw [List.mem_singleton.mp hx]
        exact edgesResolved_ok hres

theorem revertStepPure_elookup_other {instances : List Nat} {idOf : Nat → String}
    {E : List (Nat × Rel)} {kv : String × DiffEntry} {cid : String} (hne : kv.1 ≠ cid) :
    elookup idOf (revertStepPure instances idOf E kv) cid = elookup idOf E cid := by
  unfold revertStepPure
  cases kv.2.status with
  | added =>
    unfold remove_container_by_id
    cases hres : get_instance_by_id instances idOf kv.1 with
    | none => rfl
    | some c =>
      exact elookup_remove_other (by rw [get_instance_by_id_idOf hres]; exact hne) E
  | changed =>
    cases hres : get_instance_by_id instances idOf kv.1 with
    | none => rfl
    | some c =>
      exact elookup_setPosition_other (by rw [get_instance_by_id_idOf hres]; exact hne) E _
  | removed =>
    unfold add_container_by_id
    cases hres : get_instance_by_id instances idOf kv.1 with
    | none => rfl
    | some c =>
      unfold add_container_edges
      rw [elookup_append]
      have hf : (idOf c == cid) = false := by
        rw [get_instance_by_id_idOf hres]
        simpa using hne
      rw [elookup_cons]
      simp only [hf, if_neg Bool.false_ne_true]
      rw [show elookup idOf [] cid = none from rfl, orElseO_none]

theorem revertStepPure_elookup_own {instances : List Nat} {idOf : Nat → String}
    {E : List (Nat × Rel)} (kv : String × DiffEntry) (h : EdgesResolved instances idOf E) :
    elookup idOf (revertStepPure instances idOf E kv) kv.1
      = revertEffect instances idOf kv.1 kv.2 (elookup idOf E kv.1) := by
  unfold revertStepPure revertEffect
  cases kv.2.status with
  | added =>
    unfold remove_container_by_id
    cases hres : get_instance_by_id instances idOf kv.1 with
    | none => rfl
    | some c =>
      have hid : idOf c = kv.1 := get_instance_by_id_idOf hres
      rw [← hid]
      exact elookup_remove_self (edgesResolved_uniq h hres)
  | changed =>
    cases hres : get_instance_by_id instances idOf kv.1 with
    | none => rfl
    | some c =>
      have hid : idOf c = kv.1 := get_instance_by_id_idOf hres
      rw [← hid]
      exact elookup_setPosition_self (edgesResolved_uniq h hres) _
  | removed =>
    unfold add_container_by_id
    cases hres : get_instance_by_id instances idOf kv.1 with
    | none => rfl
    | some c =>
      unfold add_container_edges
      rw [elookup_append]
      have hid : idOf c = kv.1 := get_instance_by_id_idOf hres
      have ht : (idOf c == kv.1) = true := by rw [hid]; exact beq_self_eq_true _
      rw [elookup_cons]
      simp [ht]

theorem dictEq_trans {m1 m2 m3 : List (String × String)}
    (h1 : dictEq m1 m2 = true) (h2 : dictEq m2 m3 = true) : dictEq m1 m3 = true :=
  (dictEq_iff m1 m3).mpr (fun k => ((dictEq_iff m1 m2).mp h1 k).trans ((dictEq_iff m2 m3).mp h2 k))

theorem plookup_of_mem_nodup {β : Type} {l : List (String × β)} {kv : String × β}
    (hnd : (l.map (fun kv => kv.1)).Nodup) (h : kv ∈ l) : plookup l kv.1 = some kv.2 := by
  induction l with
  | nil => cases h
  | cons a t ih =>
    rcases List.mem_cons.mp h with h | h
    · rw [h, plookup_cons, if_pos (beq_self_eq_true _)]
    · rw [plookup_cons]
      have hne : (a.1 == kv.1) = false := by
        have hna : a.1 ∉ t.map (fun kv => kv.1) := (List.nodup_cons.mp hnd).1
        have : a.1 ≠ kv.1 := fun hc => hna (hc ▸ List.mem_map.mpr ⟨kv, h, rfl⟩)
        simpa using this
      rw [hne, if_neg Bool.false_ne_true]
      exact ih (List.nodup_cons.mp hnd).2 h

theorem odictEq_refl (a : Option (List (String × String))) : odictEq a a = true := by
  cases a with
  | none => rfl
  | some m => exact dictEq_refl m

theorem optionRelEq_check {a b : Option Rel} (h : optionRelEq a b = true) :
    odictEq (a.map check_relationship) (b.map check_relationship) = true := by
  cases a with
  | none => cases b with
    | none => rfl
    | some r => exact absurd h (by simp [optionRelEq])
  | some r => cases b with
    | none => exact absurd h (by simp [optionRelEq])
    | some s => exact relEq_check h

theorem edgesAgree_elookup {idOf : Nat → String} :
    ∀ {E : List (Nat × Rel)} {S : Snapshot}, edgesAgree idOf E S = true →
      ∀ cid, optionRelEq (elookup idOf E cid) (plookup (projSnap S) cid) = true := by
  intro E
  induction E with
  | nil =>
    intro S h cid
    cases S with
    | nil => rfl
    | cons t S' => exact absurd h (by simp [edgesAgree])
  | cons e E' ih =>
    intro S h cid
    cases S with
    | nil => exact absurd h (by simp [edgesAgree])
    | cons t S' =>
      have h' : ((idOf e.1 == t.1 && relEq e.2 t.2.2) && edgesAgree idOf E' S') = true := h
      rw [Bool.and_eq_true, Bool.and_eq_true] at h'
      have hid : idOf e.1 = t.1 := eq_of_beq h'.1.1
      rw [elookup_cons]
      show optionRelEq _ (plookup ((t.1, t.2.2) :: projSnap S') cid) = true
      rw [plookup_cons]
      by_cases hc : (idOf e.1 == cid)
      · have ht : ((t.1, t.2.2).1 == cid) = true := by
          show (t.1 == cid) = true
          rw [← hid]
          exact hc
        rw [if_pos hc, if_pos ht]
        exact h'.1.2
      · have ht : ((t.1, t.2.2).1 == cid) = false := by
          show (t.1 == cid) = false
          rw [← hid]
          simpa using hc
        rw [if_neg (by simpa using hc), ht, if_neg Bool.false_ne_true]
        exact ih h'.2 cid

/-- Under `edgesAgree` the edge list and the snapshot list the same
child ids in the same order. -/
theorem edgesAgree_ids {idOf : Nat → String} :
    ∀ {E : List (Nat × Rel)} {S : Snapshot}, edgesAgree idOf E S = true →
      E.map (fun e => idOf e.1) = (projSnap S).map (fun kv => kv.1) := by
  intro E
  induction E with
  | nil =>
    intro S h
    cases S with
    | nil => rfl
    | cons t S' => exact absurd h (by simp [edgesAgree])
  | cons e E' ih =>
    intro S h
    cases S with
    | nil => exact absurd h (by simp [edgesAgree])
    | cons t S' =>
      have h' : ((idOf e.1 == t.1 && relEq e.2 t.2.2) && edgesAgree idOf E' S') = true := h
      rw [Bool.and_eq_true, Bool.and_eq_true] at h'
      show idOf e.1 :: E'.map (fun e => idOf e.1) = t.1 :: (projSnap S').map (fun kv => kv.1)
      rw [eq_of_beq h'.1.1, ih h'.2]

theorem find?_beq_self {l : List Nat} {c : Nat} (h : c ∈ l) :
    l.find? (fun x => x == c) = some c := by
  induction l with
  | nil => cases h
  | cons a t ih =>
    by_cases ha : a = c
    · subst ha
      simp [List.find?_cons]
    · have hb : (a == c) = false := by simpa using ha
      simp only [List.find?_cons, hb, if_neg Bool.false_ne_true]
      apply ih
      rcases List.mem_cons.mp h with h | h
      · exact absurd h.symm ha
      · exact h

theorem normFalsy_idem (r : Rel) : normFalsy (normFalsy r) = normFalsy r := by
  unfold normFalsy
  by_cases h : r.isTruthy
  · rw [if_pos h, if_pos h]
  · rw [if_neg h]
    rfl

/-- Rebuilding a just-captured snapshot restores the edge list exactly,
up to falsy positions coming back as `None`, provided every child is
still registered. -/
theorem resolveSnap_capture {instances : List Nat} {idOf : Nat → String}
    {E : List (Nat × Rel)} (h : ∀ e ∈ E, e.1 ∈ instances) :
    resolveSnap instances idOf (captureState idOf E)
      = E.map (fun e => (e.1, normFalsy e.2)) := by
  induction E with
  | nil => rfl
  | cons e E' ih =>
    unfold captureState resolveSnap
    rw [List.map_cons, List.filterMap_cons]
    have hf : instances.find? (fun inst => inst == e.1) = some e.1 :=
      find?_beq_self (h e (List.mem_cons_self e E'))
    show _ = (e.1, normFalsy e.2) :: E'.map (fun e => (e.1, normFalsy e.2))
    rw [show orElseO (instances.find? (fun inst => inst == e.1))
        (get_instance_by_id instances idOf (idOf e.1)) = some e.1 from by rw [hf]; rfl]
    have ih' := ih (fun x hx => h x (List.mem_cons_of_mem e hx))
    unfold captureState resolveSnap at ih'
    rw [Option.map_some']
    rw [ih']

theorem plookup_map_overwrite {β : Type} {d : List (String × β)} {k : String} (v : β)
    (h : k ∈ d.map (fun kv => kv.1)) :
    plookup (d.map (fun kv => if kv.1 == k then (k, v) else kv)) k = some v := by
  induction d with
  | nil => simp at h
  | cons a t ih =>
    rw [List.map_cons]
    by_cases ha : (a.1 == k)
    · rw [if_pos ha, plookup_cons, if_pos (beq_self_eq_true k)]
    · rw [if_neg ha, plookup_cons, if_neg (by simpa using ha)]
      apply ih
      rcases List.mem_map.mp h with ⟨kv, hkv, hk⟩
      rcases List.mem_cons.mp hkv with hkv | hkv
      · subst hkv
        exact absurd (beq_iff_eq.mpr hk) ha
      · exact List.mem_map.mpr ⟨kv, hkv, hk⟩

theorem plookup_pyInsert_self {β : Type} (d : List (String × β)) (k : String) (v : β) :
    plookup (pyInsert d k v) k = some v := by
  unfold pyInsert
  by_cases hm : d.any (fun kv => kv.1 == k)
  · rw [if_pos hm]
    apply plookup_map_overwrite
    rcases List.any_eq_true.mp hm with ⟨kv, hkv, hk⟩
    exact List.mem_map.mpr ⟨kv, hkv, eq_of_beq hk⟩
  · rw [if_neg hm, plookup_append]
    cases hp : plookup d k with
    | some w =>
      exact absurd hm (by
        intro _
        rcases List.mem_map.mp (plookup_isSome_iff.mp (by rw [hp]; rfl)) with ⟨kv, hkv, hk⟩
        exact hm (List.any_eq_true.mpr ⟨kv, hkv, by rw [hk]; exact beq_self_eq_true _⟩))
    | none =>
      rw [plookup_cons, if_pos (beq_self_eq_true k)]
      rfl

theorem plookup_map_overwrite_other {β : Type} {d : List (String × β)} {k k' : String}
    (hne : k' ≠ k) (v : β) :
    plookup (d.map (fun kv => if kv.1 == k then (k, v) else kv)) k' = plookup d k' := by
  have hkk : (k == k') = false := by
    simpa using fun hc => hne (eq_of_beq hc).symm
  induction d with
  | nil => rfl
  | cons a t ih =>
    rw [List.map_cons]
    by_cases ha : (a.1 == k)
    · rw [if_pos ha, plookup_cons, plookup_cons]
      have h1 : ((k, v).1 == k') = false := hkk
      have h2 : (a.1 == k') = false := by
        rw [eq_of_beq ha]
        exact hkk
      rw [h1, h2, if_neg Bool.false_ne_true, if_neg Bool.false_ne_true]
      exact ih
    · rw [if_neg ha, plookup_cons, plookup_cons]
      by_cases ha' : (a.1 == k')
      · rw [if_pos ha', if_pos ha']
      · rw [if_neg (by simpa using ha'), if_neg (by simpa using ha')]
        exact ih

theorem plookup_pyInsert_other {β : Type} (d : List (String × β)) {k k' : String}
    (hne : k' ≠ k) (v : β) : plookup (pyInsert d k v) k' = plookup d k' := by
  unfold pyInsert
  by_cases hm : d.any (fun kv => kv.1 == k)
  · rw [if_pos hm]
    exact plookup_map_overwrite_other hne v
  · rw [if_neg hm, plookup_append]
    have h1 : plookup [(k, v)] k' = none := by
      rw [plookup_cons]
      have hkk : ((k, v).1 == k') = false := by
        show (k == k') = false
        simpa using fun hc => hne (eq_of_beq hc).symm
      rw [hkk, if_neg Bool.false_ne_true]
      rfl
    rw [h1, orElseO_none]

theorem contains_iff_mem {l : List String} {a : String} : l.contains a = true ↔ a ∈ l :=
  List.elem_iff

theorem dedupScan_cons (idOf : Nat → String) (c : Nat) (rest : List Nat) (seen : List String) :
    dedupScan idOf (c :: rest) seen =
      if seen.contains (idOf c) then dedupScan idOf rest seen
      else c :: dedupScan idOf rest (idOf c :: seen) := rfl

theorem dedupScan_congr_seen {idOf : Nat → String} :
    ∀ (l : List Nat) (s1 s2 : List String), (∀ x, x ∈ s1 ↔ x ∈ s2) →
      dedupScan idOf l s1 = dedupScan idOf l s2 := by
  intro l
  induction l with
  | nil => intro s1 s2 _; rfl
  | cons c rest ih =>
    intro s1 s2 hs
    unfold dedupScan
    by_cases h1 : s1.contains (idOf c) = true
    · have h2 : s2.contains (idOf c) = true :=
        contains_iff_mem.mpr ((hs _).mp (contains_iff_mem.mp h1))
      rw [if_pos h1, if_pos h2]
      exact ih s1 s2 hs
    · have h2 : ¬ s2.contains (idOf c) = true := by
        intro hc
        exact h1 (contains_iff_mem.mpr ((hs _).mpr (contains_iff_mem.mp hc)))
      rw [if_neg h1, if_neg h2]
      rw [ih (idOf c :: s1) (idOf c :: s2) (by
        intro x
        simp only [List.mem_cons]
        exact or_congr Iff.rfl (hs x))]

theorem dedupScan_append {idOf : Nat → String} :
    ∀ (xs ys : List Nat) (seen : List String),
      dedupScan idOf (xs ++ ys) seen
        = dedupScan idOf xs seen ++ dedupScan idOf ys (xs.map idOf ++ seen) := by
  intro xs
  induction xs with
  | nil => intro ys seen; rfl
  | cons c rest ih =>
    intro ys seen
    show dedupScan idOf (c :: (rest ++ ys)) seen = _
    rw [dedupScan_cons, dedupScan_cons]
    by_cases hc : seen.contains (idOf c) = true
    · rw [if_pos hc, if_pos hc, ih ys seen]
      congr 1
      apply dedupScan_congr_seen
      intro x
      have hcm : idOf c ∈ seen := contains_iff_mem.mp hc
      show x ∈ rest.map idOf ++ seen ↔ x ∈ (idOf c :: rest.map idOf) ++ seen
      simp only [List.mem_append, List.mem_cons]
      constructor
      · intro h; tauto
      · rintro ((h | h) | h)
        · exact Or.inr (h ▸ hcm)
        · exact Or.inl h
        · exact Or.inr h
    · rw [if_neg hc, if_neg hc, ih ys (idOf c :: seen)]
      rw [List.cons_append]
      congr 2
      apply dedupScan_congr_seen
      intro x
      show x ∈ rest.map idOf ++ (idOf c :: seen) ↔ x ∈ (idOf c :: rest.map idOf) ++ seen
      simp only [List.mem_append, List.mem_cons]
      tauto

theorem any_beq_iff {idOf : Nat → String} {l : List Nat} {x : String} :
    (l.any (fun d => idOf d == x)) = true ↔ x ∈ l.map idOf := by
  rw [List.any_eq_true]
  constructor
  · rintro ⟨d, hd, hx⟩
    exact List.mem_map.mpr ⟨d, hd, eq_of_beq hx⟩
  · intro h
    rcases List.mem_map.mp h with ⟨d, hd, hx⟩
    exact ⟨d, hd, beq_iff_eq.mpr hx⟩

/-- The reversed scan of `deduplicate_all(keep_last=True)` keeps exactly
the last occurrence of every id, in original relative order. -/
theorem deduplicate_all_keepLast (idOf : Nat → String) :
    ∀ l : List Nat, deduplicate_all idOf l true = keepLastOcc idOf l := by
  intro l
  induction l with
  | nil => rfl
  | cons c rest ih =>
    unfold deduplicate_all at ih ⊢
    rw [if_pos rfl] at ih ⊢
    rw [List.reverse_cons, dedupScan_append, List.reverse_append]
    show (dedupScan idOf [c] (rest.reverse.map idOf ++ [])).reverse ++ _ = _
    rw [dedupScan_cons]
    unfold keepLastOcc
    by_cases hm : (rest.any (fun d => idOf d == idOf c)) = true
    · have hc : ((rest.reverse.map idOf ++ []).contains (idOf c)) = true := by
        apply contains_iff_mem.mpr
        rw [List.append_nil, List.map_reverse, List.mem_reverse]
        exact any_beq_iff.mp hm
      rw [if_pos hc, if_pos hm]
      show List.reverse [] ++ _ = _
      rw [List.reverse_nil, List.nil_append]
      exact ih
    · have hc : ¬ ((rest.reverse.map idOf ++ []).contains (idOf c)) = true := by
        intro hcon
        apply hm
        apply any_beq_iff.mpr
        have := contains_iff_mem.mp hcon
        rw [List.append_nil, List.map_reverse, List.mem_reverse] at this
        exact this
      rw [if_neg hc, if_neg hm]
      show List.reverse (c :: dedupScan idOf [] _) ++ _ = _
      show List.reverse [c] ++ _ = _
      rw [show List.reverse [c] = [c] from rfl, ih]
      rfl

theorem keepLastOcc_sublist (idOf : Nat → String) :
    ∀ l : List Nat, (keepLastOcc idOf l).Sublist l := by
  intro l
  induction l with
  | nil => exact List.Sublist.refl []
  | cons c rest ih =>
    unfold keepLastOcc
    by_cases hm : (rest.any (fun d => idOf d == idOf c)) = true
    · rw [if_pos hm]
      exact ih.cons c
    · rw [if_neg hm]
      exact ih.cons₂ c

theorem keepLastOcc_ids_nodup (idOf : Nat → String) :
    ∀ l : List Nat, ((keepLastOcc idOf l).map idOf).Nodup := by
  intro l
  induction l with
  | nil => exact List.nodup_nil
  | cons c rest ih =>
    unfold keepLastOcc
    by_cases hm : (rest.any (fun d => idOf d == idOf c)) = true
    · rw [if_pos hm]
      exact ih
    · rw [if_neg hm, List.map_cons, List.nodup_cons]
      refine ⟨?_, ih⟩
      intro hc
      apply hm
      apply any_beq_iff.mpr
      exact ((keepLastOcc_sublist idOf rest).map idOf).subset hc

theorem keepLastOcc_last (idOf : Nat → String) :
    ∀ l : List Nat, ∀ c ∈ keepLastOcc idOf l,
      l.reverse.find? (fun d => idOf d == idOf c) = some c := by
  intro l
  induction l with
  | nil => intro c hc; cases hc
  | cons a rest ih =>
    intro c hc
    rw [List.reverse_cons, List.find?_append]
    unfold keepLastOcc at hc
    by_cases hm : (rest.any (fun d => idOf d == idOf a)) = true
    · rw [if_pos hm] at hc
      rw [ih c hc]
      rfl
    · rw [if_neg hm] at hc
      rcases List.mem_cons.mp hc with hc | hc
      · subst hc
        have hnone : rest.reverse.find? (fun d => idOf d == idOf c) = none := by
          rw [List.find?_eq_none]
          intro d hd
          intro hb
          exact hm (List.any_eq_true.mpr ⟨d, List.mem_reverse.mp hd, hb⟩)
        rw [hnone]
        show ([c].find? (fun d => idOf d == idOf c)) = some c
        rw [List.find?_cons_of_pos]
        exact beq_self_eq_true _
      · rw [ih c hc]
        rfl

theorem keepLastOcc_covers (idOf : Nat → String) :
    ∀ l : List Nat, ∀ c ∈ l, ∃ d ∈ keepLastOcc idOf l, idOf d = idOf c := by
  intro l
  induction l with
  | nil => intro c hc; cases hc
  | cons a rest ih =>
    intro c hc
    unfold keepLastOcc
    by_cases hm : (rest.any (fun d => idOf d == idOf a)) = true
    · rw [if_pos hm]
      rcases List.mem_cons.mp hc with hc | hc
      · subst hc
        rcases List.any_eq_true.mp hm with ⟨d, hd, hb⟩
        rcases ih d hd with ⟨d', hd', hid⟩
        exact ⟨d', hd', by rw [hid]; exact eq_of_beq hb⟩
      · exact ih c hc
    · rw [if_neg hm]
      rcases List.mem_cons.mp hc with hc | hc
      · subst hc
        exact ⟨c, List.mem_cons_self _ _, rfl⟩
      · rcases ih c hc with ⟨d, hd, hid⟩
        exact ⟨d, List.mem_cons_of_mem a hd, hid⟩

/-- C8: Cycle-forming edges are still inserted: `add_container` appends
`(child, position)` at the end of the edge list — the edge list after
the call is exactly the old list with the edge appended — even when
`child` is already an ancestor of `self`, in which case the descendant
check only makes the logged warning fire. -/
theorem C8_add_edge_appends_even_on_cycle
    (children : Nat → List Nat) (E : List (Nat × Rel)) (selfC child : Nat) (position : Rel)
    (hcycle : checkIsDescendent children child selfC 4 0 = true) :
    (add_container children E selfC child position).1 = E ++ [(child, position)] ∧
    (add_container children E selfC child position).2 = true :=
  ⟨rfl, hcycle⟩

/-- C8 witness: node 1 is an ancestor of node 0, and adding 1 under 0
still appends the edge. -/
theorem C8_add_edge_appends_even_on_cycle_witness :
    (add_container cycChildren [(9, Rel.rstr "p")] 0 1 (Rel.rstr "x")).1
      = [(9, Rel.rstr "p")] ++ [(1, Rel.rstr "x")] ∧
    (add_container cycChildren [(9, Rel.rstr "p")] 0 1 (Rel.rstr "x")).2 = true :=
  C8_add_edge_appends_even_on_cycle cycChildren [(9, Rel.rstr "p")] 0 1 (Rel.rstr "x")
    (by decide)

/-- C7 counterexample: in the chain 0→1→⋯→5, node 5 is a true descendant
of 0 every path to which is longer than the default depth limit 4 (there
is a path of exactly 5 hops and none of at most 4), yet
`checkIsDescendent` returns `true` — not `false` as the claim states
(the guard only cuts the search at depth `depth_limit + 1`). -/
theorem C7_depth_bound_counterexample :
    hasPathLen chainC 5 0 5 = true ∧
    (∀ n, n ≤ 4 → hasPathLen chainC n 0 5 = false) ∧
    checkIsDescendent chainC 0 5 4 0 = true := by
  refine ⟨by decide, by decide, by decide⟩

/-- C7 amended: with the default depth limit 4 the check returns `false`
whenever every edge path from `self` to `other` is longer than
`depth_limit + 1` hops (a descendant at exactly `depth_limit + 1` hops
is still found); it is total (no exception) and uses no visited set. -/
theorem C7_depth_bound_amended (children : Nat → List Nat) (b a depth_limit : Nat)
    (h : ∀ n, n ≤ depth_limit + 1 → 1 ≤ n → hasPathLen children n b a = false) :
    checkIsDescendent children b a depth_limit 0 = false := by
  cases hcc : checkIsDescendent children b a depth_limit 0 with
  | false => rfl
  | true =>
    unfold checkIsDescendent at hcc
    rcases checkIsDescendentAux_path _ _ _ hcc with ⟨n, h1, h2, hp⟩
    rw [Nat.sub_zero] at h2
    rw [h n h2 h1] at hp
    exact Bool.noConfusion hp

/-- C7 amended witness: node 6 sits 6 hops away; no path of ≤ 5 hops
exists and the check indeed returns `false`. -/
theorem C7_depth_bound_amended_witness :
    checkIsDescendent chainC 0 6 4 0 = false :=
  C7_depth_bound_amended chainC 0 6 4 (by decide)

/-- C6: Deduplication with `keep_last=True` keeps the last occurrence:
the result is exactly the last occurrence of each id in original
relative order (`keepLastOcc`), its ids are duplicate-free, it is a
sublist of the registry (relative order preserved), each survivor is the
last-seen container of its id, and every id present in the registry
still has a survivor. -/
theorem C6_deduplicate_keep_last (idOf : Nat → String) (l : List Nat) :
    deduplicate_all idOf l true = keepLastOcc idOf l ∧
    ((deduplicate_all idOf l true).map idOf).Nodup ∧
    (deduplicate_all idOf l true).Sublist l ∧
    (∀ c ∈ deduplicate_all idOf l true,
      l.reverse.find? (fun d => idOf d == idOf c) = some c) ∧
    (∀ c ∈ l, ∃ d ∈ deduplicate_all idOf l true, idOf d = idOf c) := by
  rw [deduplicate_all_keepLast]
  exact ⟨rfl, keepLastOcc_ids_nodup idOf l, keepLastOcc_sublist idOf l,
    keepLastOcc_last idOf l, keepLastOcc_covers idOf l⟩

/-- C2 (code bug): the diff of `A = [(C, "supports")]` against `B = []`
carries the removed child's source position in `base_relationship_dict`,
but `revert_differences` re-adds the child with
`change.get("relationship_dict", {})` — a key removed entries never
carry — so the child comes back with the empty dict `{}` instead of
`{label: "supports"}`. -/
theorem C2_revert_removed_readds_empty_dict :
    plookup (compareStates snapAC2 []) "C"
      = some ⟨.removed, "supports", none, some [("label", "supports")]⟩ ∧
    revert_differences [7] idOfC2 "n" [("n", compareStates snapAC2 [])] []
      = some [(7, Rel.rdict [])] ∧
    [(7, Rel.rdict [])] ≠ [((7 : Nat), Rel.rdict [("label", "supports")])] := by
  refine ⟨by decide, by decide, by decide⟩

/-- C3 (code bug): with parent `P` (one current child `C`) and a diff map
holding one entry under `C`, the code scores `P` at 0 — it takes the
whole registry as "children" and resolves each by `str(object)`, which
matches no id, so no child is ever visited — while the spec's recursive
sum (own count plus current children) scores `P` at 1. -/
theorem C3_propagated_score_mismatch :
    compute_propagated_change_scores [0, 1] idOfPC strObjPC deltaC3
      = [("P", 0), ("C", 1)] ∧
    (propagated_score_spec childrenPC idOfPC deltaC3 3 0 []).1 = 1 := by
  refine ⟨by decide, by decide⟩

theorem filterMap_some_eq_map {α β : Type} (f : α → β) (g : α → Option β) :
    ∀ l : List α, (∀ x ∈ l, g x = some (f x)) → l.filterMap g = l.map f := by
  intro l
  induction l with
  | nil => intro _; rfl
  | cons a t ih =>
    intro h
    rw [List.filterMap_cons, h a (List.mem_cons_self a t), List.map_cons,
      ih (fun x hx => h x (List.mem_cons_of_mem a hx))]

/-- C4: Diff classification.  For stored snapshots `A` (source) and `B`
(target) with duplicate-free child ids, the diff dict has duplicate-free
keys (exactly one entry per differing id) and, per child id: present
only in the target → an `added` entry carrying the normalized target
position; present in both with unequal normalized positions → a
`changed` entry carrying both normalized positions; present only in the
source → a `removed` entry carrying the normalized source position;
normalized positions equal → no entry (`diffOfPair` spells out these
four cases). -/
theorem C4_diff_classification (node : NodeState) (src tgt : String) (A B : Snapshot)
    (hA : plookup node.allStates src = some A) (hB : plookup node.allStates tgt = some B)
    (hndA : ((projSnap A).map (fun kv => kv.1)).Nodup)
    (hndB : ((projSnap B).map (fun kv => kv.1)).Nodup) :
    ((compare_two_states node src tgt).map (fun kv => kv.1)).Nodup ∧
    ∀ cid, plookup (compare_two_states node src tgt) cid
      = diffOfPair (plookup (projSnap A) cid) (plookup (projSnap B) cid) := by
  unfold compare_two_states
  rw [hA, hB]
  exact ⟨compareStates_keys_nodup A B, fun cid => compareStates_lookup A B hndA hndB cid⟩

/-- C4 witness: the classification at the concrete two-snapshot node. -/
theorem C4_diff_classification_witness :
    ((compare_two_states nodeC4 "s" "t").map (fun kv => kv.1)).Nodup ∧
    ∀ cid, plookup (compare_two_states nodeC4 "s" "t") cid
      = diffOfPair (plookup (projSnap snapA4) cid) (plookup (projSnap snapB4) cid) :=
  C4_diff_classification nodeC4 "s" "t" snapA4 snapB4 (by decide) (by decide)
    (by decide) (by decide)

/-- C9: label-less positions collapse under normalization: a dict with
no `"label"` key normalizes to exactly `{label: ""}` (all other keys
discarded), and consequently a child whose position differs between two
label-less dicts — or between a label-less dict and the bare empty
string — produces no diff entry at all. -/
theorem C9_labelless_positions_collapse :
    (∀ m : List (String × String), dlookup m "label" = none →
      check_relationship (.rdict m) = [("label", "")]) ∧
    (∀ (node : NodeState) (src tgt : String) (A B : Snapshot) (cid : String)
      (m1 : List (String × String)) (p2 : Rel),
      plookup node.allStates src = some A → plookup node.allStates tgt = some B →
      ((projSnap A).map (fun kv => kv.1)).Nodup →
      ((projSnap B).map (fun kv => kv.1)).Nodup →
      plookup (projSnap A) cid = some (.rdict m1) → dlookup m1 "label" = none →
      plookup (projSnap B) cid = some p2 →
      ((∃ m2, p2 = .rdict m2 ∧ dlookup m2 "label" = none) ∨ p2 = .rstr "") →
      plookup (compare_two_states node src tgt) cid = none) := by
  have hcoll : ∀ m : List (String × String), dlookup m "label" = none →
      check_relationship (.rdict m) = [("label", "")] := by
    intro m h
    rw [check_relationship_rdict, if_neg (by rw [h]; simp)]
  refine ⟨hcoll, ?_⟩
  intro node src tgt A B cid m1 p2 hA hB hndA hndB hpa hm1 hpb hp2
  unfold compare_two_states
  rw [hA, hB]
  show plookup (compareStates A B) cid = none
  rw [compareStates_lookup A B hndA hndB cid, hpa, hpb]
  have h2 : check_relationship p2 = [("label", "")] := by
    rcases hp2 with ⟨m2, hm2, hl2⟩ | hstr
    · rw [hm2]
      exact hcoll m2 hl2
    · rw [hstr]
      rfl
  show (if dictEq (check_relationship (.rdict m1)) (check_relationship p2) then none
    else _) = none
  rw [hcoll m1 hm1, h2, if_pos (dictEq_refl _)]

/-- C9 witness: the collapse and the silent diff at concrete inputs. -/
theorem C9_labelless_positions_collapse_witness :
    check_relationship (.rdict [("k", "1")]) = [("label", "")] ∧
    plookup (compare_two_states nodeC9 "s" "t") "y" = none :=
  ⟨C9_labelless_positions_collapse.1 [("k", "1")] rfl,
    C9_labelless_positions_collapse.2 nodeC9 "s" "t" snapA9 snapB9 "y"
      [("k", "1")] (.rdict [("j", "2")]) (by decide) (by decide) (by decide) (by decide)
      (by decide) rfl (by decide) (Or.inl ⟨[("j", "2")], rfl, rfl⟩)⟩

/-- C10: unknown state names compare as empty snapshots.
`compare_two_states` is total (the embedding returns a value for every
pair of names); a source name with no stored snapshot makes every child
of the target snapshot an `added` entry, a target name with no stored
snapshot makes every child of the source snapshot a `removed` entry, and
two unknown names give the empty diff. -/
theorem C10_missing_state_is_empty (node : NodeState) (src tgt : String) :
    (plookup node.allStates src = none → plookup node.allStates tgt = none →
      compare_two_states node src tgt = []) ∧
    (∀ B, plookup node.allStates src = none → plookup node.allStates tgt = some B →
      compare_two_states node src tgt
        = (pyDictOf (projSnap B)).map (fun kv =>
            (kv.1, ⟨.added, labelOf (check_relationship kv.2),
              some (check_relationship kv.2), none⟩))) ∧
    (∀ A, plookup node.allStates src = some A → plookup node.allStates tgt = none →
      compare_two_states node src tgt
        = (pyDictOf (projSnap A)).map (fun kv =>
            (kv.1, ⟨.removed, labelOf (check_relationship kv.2), none,
              some (check_relationship kv.2)⟩))) := by
  refine ⟨?_, ?_, ?_⟩
  · intro hs ht
    unfold compare_two_states
    rw [hs, ht]
    rfl
  · intro B hs ht
    unfold compare_two_states
    rw [hs, ht]
    show compareStates [] B = _
    rw [compareStates_eq]
    have hsrc : pyDictOf (projSnap ([] : Snapshot)) = [] := rfl
    rw [hsrc]
    rw [show ([] : List (String × Rel)).filterMap (fun kv =>
      (sourceEntry (pyDictOf (projSnap B)) kv).map (fun e => (kv.1, e))) = [] from rfl]
    rw [List.append_nil]
    apply filterMap_some_eq_map
    intro kv _
    rfl
  · intro A hs ht
    unfold compare_two_states
    rw [hs, ht]
    show compareStates A [] = _
    rw [compareStates_eq]
    have htgt : pyDictOf (projSnap ([] : Snapshot)) = [] := rfl
    rw [htgt]
    rw [show ([] : List (String × Rel)).filterMap (fun kv =>
      (targetEntry (pyDictOf (projSnap A)) kv).map (fun e => (kv.1, e))) = [] from rfl]
    rw [List.nil_append]
    apply filterMap_some_eq_map
    intro kv _
    rfl

/-- C10 witness: both-unknown, unknown-source and unknown-target cases at
a concrete node. -/
theorem C10_missing_state_is_empty_witness :
    compare_two_states nodeC10 "a" "b" = [] ∧
    compare_two_states nodeC10 "a" "only"
      = [("w", ⟨.added, "lbl", some [("label", "lbl")], none⟩)] ∧
    compare_two_states nodeC10 "only" "b"
      = [("w", ⟨.removed, "lbl", none, some [("label", "lbl")]⟩)] := by
  refine ⟨(C10_missing_state_is_empty nodeC10 "a" "b").1 rfl rfl, ?_, ?_⟩
  · rw [(C10_missing_state_is_empty nodeC10 "a" "only").2.1 [("w", 4, Rel.rstr "lbl")] rfl rfl]
    decide
  · rw [(C10_missing_state_is_empty nodeC10 "only" "b").2.2 [("w", 4, Rel.rstr "lbl")] rfl rfl]
    decide

theorem switch_state_activeState (instances : List Nat) (idOf : Nat → String)
    (s : NodeState) (N : String) :
    (switch_state instances idOf s N).activeState = some N := by
  unfold switch_state
  cases plookup (pyInsert s.allStates (activeName s) (captureState idOf s.edges)) N with
  | some snap => rfl
  | none => rfl

theorem activeName_switch (instances : List Nat) (idOf : Nat → String)
    (s : NodeState) {N : String} (hN : N ≠ "") :
    activeName (switch_state instances idOf s N) = N := by
  unfold activeName
  rw [switch_state_activeState]
  show (if N == "" then "base" else N) = N
  rw [if_neg (by simpa using hN)]

/-- After any switch, the name that was active going in holds the
snapshot captured from the edge list going in. -/
theorem switch_state_save_lookup (instances : List Nat) (idOf : Nat → String)
    (s : NodeState) (N : String) :
    plookup (switch_state instances idOf s N).allStates (activeName s)
      = some (captureState idOf s.edges) := by
  unfold switch_state
  cases hp : plookup (pyInsert s.allStates (activeName s) (captureState idOf s.edges)) N with
  | some snap =>
    show plookup (pyInsert s.allStates (activeName s) (captureState idOf s.edges))
      (activeName s) = _
    rw [plookup_pyInsert_self]
  | none =>
    show plookup (pyInsert (pyInsert s.allStates (activeName s) (captureState idOf s.edges))
      N (captureState idOf s.edges)) (activeName s) = _
    have hne : activeName s ≠ N := by
      intro he
      rw [← he, plookup_pyInsert_self] at hp
      exact Option.noConfusion hp
    rw [plookup_pyInsert_other _ hne, plookup_pyInsert_self]

theorem switch_state_edges_of_lookup {instances : List Nat} {idOf : Nat → String}
    {s : NodeState} {N : String} {snap : Snapshot}
    (hp : plookup (pyInsert s.allStates (activeName s) (captureState idOf s.edges)) N
      = some snap) :
    (switch_state instances idOf s N).edges = resolveSnap instances idOf snap := by
  unfold switch_state
  rw [hp]

/-- C5 amended: for nonempty state names `A` and `B` (an empty name
aliases to `"base"` when read back as the active state), the sequence
`switch_state A; switch_state B; switch_state A` with every child of the
post-first-switch edge list still registered restores that edge list
exactly up to falsy-position normalization: same children in the same
order, each truthy position kept, and a falsy position (`None`, `""`,
`{}`) coming back as `None` (snapshots store
`deepcopy(relationship) if relationship else None`). -/
theorem C5_switch_state_symmetry_amended (instances : List Nat) (idOf : Nat → String)
    (s : NodeState) (A B : String) (hA : A ≠ "") (hB : B ≠ "")
    (hreg : ∀ e ∈ (switch_state instances idOf s A).edges, e.1 ∈ instances) :
    (switch_state instances idOf (switch_state instances idOf
        (switch_state instances idOf s A) B) A).edges
      = (switch_state instances idOf s A).edges.map (fun e => (e.1, normFalsy e.2)) := by
  have hact1 : activeName (switch_state instances idOf s A) = A :=
    activeName_switch instances idOf s hA
  by_cases hAB : A = B
  · subst hAB
    have hp2 : plookup (pyInsert (switch_state instances idOf s A).allStates
        (activeName (switch_state instances idOf s A))
        (captureState idOf (switch_state instances idOf s A).edges)) A
        = some (captureState idOf (switch_state instances idOf s A).edges) := by
      rw [hact1, plookup_pyInsert_self]
    have hE2 : (switch_state instances idOf (switch_state instances idOf s A) A).edges
        = (switch_state instances idOf s A).edges.map (fun e => (e.1, normFalsy e.2)) := by
      rw [switch_state_edges_of_lookup hp2]
      exact resolveSnap_capture hreg
    have hact2 : activeName (switch_state instances idOf
        (switch_state instances idOf s A) A) = A :=
      activeName_switch instances idOf _ hA
    have hp3 : plookup (pyInsert (switch_state instances idOf
        (switch_state instances idOf s A) A).allStates
        (activeName (switch_state instances idOf (switch_state instances idOf s A) A))
        (captureState idOf (switch_state instances idOf
          (switch_state instances idOf s A) A).edges)) A
        = some (captureState idOf (switch_state instances idOf
          (switch_state instances idOf s A) A).edges) := by
      rw [hact2, plookup_pyInsert_self]
    rw [switch_state_edges_of_lookup hp3]
    have hreg2 : ∀ e ∈ (switch_state instances idOf
        (switch_state instances idOf s A) A).edges, e.1 ∈ instances := by
      intro e he
      rw [hE2] at he
      rcases List.mem_map.mp he with ⟨e0, he0, hee⟩
      rw [← hee]
      exact hreg e0 he0
    rw [resolveSnap_capture hreg2, hE2, List.map_map]
    apply List.map_congr_left
    intro e _
    show (e.1, normFalsy (normFalsy e.2)) = (e.1, normFalsy e.2)
    rw [normFalsy_idem]
  · have hact2 : activeName (switch_state instances idOf
        (switch_state instances idOf s A) B) = B :=
      activeName_switch instances idOf _ hB
    have hL1 : plookup (switch_state instances idOf
        (switch_state instances idOf s A) B).allStates A
        = some (captureState idOf (switch_state instances idOf s A).edges) := by
      have h := switch_state_save_lookup instances idOf (switch_state instances idOf s A) B
      rw [hact1] at h
      exact h
    have hp3 : plookup (pyInsert (switch_state instances idOf
        (switch_state instances idOf s A) B).allStates
        (activeName (switch_state instances idOf (switch_state instances idOf s A) B))
        (captureState idOf (switch_state instances idOf
          (switch_state instances idOf s A) B).edges)) A
        = some (captureState idOf (switch_state instances idOf s A).edges) := by
      rw [hact2, plookup_pyInsert_other _ hAB, hL1]
    rw [switch_state_edges_of_lookup hp3]
    exact resolveSnap_capture hreg

/-- C5 counterexample: with the child registered and no mutation while on
`"Y"`, switching X→Y→X yields `[(4, None)]`, not the original
`[(4, "")]` — so the edge list is not exactly restored (the snapshot
stored the falsy position `""` as `None`). -/
theorem C5_switch_state_symmetry_counterexample :
    (∀ e ∈ (switch_state [4] idOfC5 nodeC5 "X").edges, e.1 ∈ [4]) ∧
    (switch_state [4] idOfC5 (switch_state [4] idOfC5
        (switch_state [4] idOfC5 nodeC5 "X") "Y") "X").edges
      ≠ (switch_state [4] idOfC5 nodeC5 "X").edges := by
  refine ⟨by decide, by decide⟩

/-- C5 amended witness at a concrete node (truthy position, so the map
is the identity and the edge list is restored exactly). -/
theorem C5_switch_state_symmetry_amended_witness :
    (switch_state [4] idOfC5 (switch_state [4] idOfC5
        (switch_state [4] idOfC5 nodeC5w "X") "Y") "X").edges
      = (switch_state [4] idOfC5 nodeC5w "X").edges.map (fun e => (e.1, normFalsy e.2)) :=
  C5_switch_state_symmetry_amended [4] idOfC5 nodeC5w "X" "Y" (by decide) (by decide)
    (by decide)

theorem diffOfPair_some_some (sr r : Rel) :
    diffOfPair (some sr) (some r) =
      if dictEq (check_relationship sr) (check_relationship r) then none
      else some ⟨.changed, labelOf (check_relationship sr) ++ " -> " ++
          labelOf (check_relationship r),
        some (check_relationship r), some (check_relationship sr)⟩ := rfl

theorem res_of_lookup {instances : List Nat} {idOf : Nat → String} {S : Snapshot}
    {cid : String} (hres : ∀ t ∈ S, (get_instance_by_id instances idOf t.1).isSome)
    (h : (plookup (projSnap S) cid).isSome) :
    (get_instance_by_id instances idOf cid).isSome := by
  have hmem : cid ∈ (projSnap S).map (fun kv => kv.1) := plookup_isSome_iff.mp h
  rcases List.mem_map.mp hmem with ⟨kv, hkv, hk⟩
  rcases List.mem_map.mp hkv with ⟨t, ht, htv⟩
  have h2 := hres t ht
  have hk2 : t.1 = cid := by rw [← htv] at hk; exact hk
  rw [← hk2]
  exact h2

theorem optionRelEq_none_right {x : Option Rel} (h : optionRelEq x none = true) :
    x = none := by
  cases x with
  | none => rfl
  | some r => exact absurd h (by simp [optionRelEq])

theorem optionRelEq_some_right {x : Option Rel} {r : Rel}
    (h : optionRelEq x (some r) = true) : ∃ y, x = some y ∧ relEq y r = true := by
  cases x with
  | none => exact absurd h (by simp [optionRelEq])
  | some y => exact ⟨y, rfl, h⟩

/-- A `changed` entry of a diff always concerns an id present in the
target snapshot. -/
theorem compareStates_changed_target_isSome {A B : Snapshot}
    (hndA : ((projSnap A).map (fun kv => kv.1)).Nodup)
    (hndB : ((projSnap B).map (fun kv => kv.1)).Nodup) :
    ∀ kv ∈ compareStates A B, kv.2.status = .changed →
      (plookup (projSnap B) kv.1).isSome := by
  intro kv hkv hst
  have hl : plookup (compareStates A B) kv.1 = some kv.2 :=
    plookup_of_mem_nodup (compareStates_keys_nodup A B) hkv
  rw [compareStates_lookup A B hndA hndB] at hl
  cases hpb : plookup (projSnap B) kv.1 with
  | some r => rfl
  | none =>
    rw [hpb] at hl
    cases hpa : plookup (projSnap A) kv.1 with
    | none =>
      rw [hpa] at hl
      exact Option.noConfusion hl
    | some sr =>
      rw [hpa] at hl
      have hl2 : (⟨.removed, labelOf (check_relationship sr), none,
          some (check_relationship sr)⟩ : DiffEntry) = kv.2 := Option.some.inj hl
      rw [← hl2] at hst
      exact DiffStatus.noConfusion hst

/-- C1 amended: diff round-trip up to position normalization and the
revert-removed defect.  For stored snapshots `A`, `B` with
duplicate-free child ids, all of whose children resolve in the registry,
and a diff dict carrying `compare_two_states(A, B)` under this node's
id: applying the diff to a node whose edge list equals `A`'s captured
list produces an edge list whose children are exactly `B`'s child ids
with, for each id, a normalized position Python-equal to `B`'s
normalized position (list order and pre-normalization spelling may
differ: added children are appended at the end, and changed/added
positions are stored in normalized dict form).  Reverting the diff on a
node whose edge list equals `B`'s captured list succeeds and yields an
edge list whose children are exactly `A`'s child ids, each id that is
not a `removed` entry carrying a position normalized-equal to `A`'s,
while a `removed` child (in `A` only) is re-added with the empty dict
`{}` rather than its stored source position. -/
theorem C1_diff_roundtrip_amended (instances : List Nat) (idOf : Nat → String)
    (selfId : String) (A B : Snapshot)
    (diffs : List (String × List (String × DiffEntry)))
    (hdiff : plookup diffs selfId = some (compareStates A B))
    (hndA : ((projSnap A).map (fun kv => kv.1)).Nodup)
    (hndB : ((projSnap B).map (fun kv => kv.1)).Nodup)
    (hAres : ∀ t ∈ A, (get_instance_by_id instances idOf t.1).isSome)
    (hBres : ∀ t ∈ B, (get_instance_by_id instances idOf t.1).isSome) :
    (∀ E, edgesAgree idOf E A = true → EdgesResolved instances idOf E →
      ∀ cid, odictEq
        ((elookup idOf (apply_differences instances idOf selfId diffs E) cid).map
          check_relationship)
        ((plookup (projSnap B) cid).map check_relationship) = true) ∧
    (∀ F, edgesAgree idOf F B = true → EdgesResolved instances idOf F →
      ∃ F2, revert_differences instances idOf selfId diffs F = some F2 ∧
        ∀ cid,
          (¬ ((plookup (projSnap A) cid).isSome ∧ plookup (projSnap B) cid = none) →
            odictEq ((elookup idOf F2 cid).map check_relationship)
              ((plookup (projSnap A) cid).map check_relationship) = true) ∧
          ((plookup (projSnap A) cid).isSome → plookup (projSnap B) cid = none →
            elookup idOf F2 cid = some (.rdict []))) := by
  constructor
  · intro E hEA hEres cid
    unfold apply_differences
    rw [hdiff]
    rw [foldl_step_elookup (applyStep instances idOf) (applyEffect instances idOf)
      (EdgesResolved instances idOf)
      (fun E kv hP => applyStep_resolved kv hP)
      (fun E kv cid hne => applyStep_elookup_other hne)
      (fun E kv hP => applyStep_elookup_own kv hP)
      (compareStates A B) E hEres (compareStates_keys_nodup A B) cid]
    rw [compareStates_lookup A B hndA hndB cid]
    have hagree := edgesAgree_elookup hEA cid
    cases hpb : plookup (projSnap B) cid with
    | none =>
      cases hpa : plookup (projSnap A) cid with
      | none =>
        rw [hpa] at hagree
        show odictEq ((elookup idOf E cid).map check_relationship) _ = true
        rw [optionRelEq_none_right hagree]
        rfl
      | some sr =>
        have hget : (get_instance_by_id instances idOf cid).isSome :=
          res_of_lookup hAres (by rw [hpa]; rfl)
        rcases Option.isSome_iff_exists.mp hget with ⟨c, hc⟩
        show odictEq ((applyEffect instances idOf cid
          ⟨.removed, labelOf (check_relationship sr), none, some (check_relationship sr)⟩
          (elookup idOf E cid)).map check_relationship) _ = true
        unfold applyEffect
        rw [hc]
        rfl
    | some r =>
      cases hpa : plookup (projSnap A) cid with
      | none =>
        have hget : (get_instance_by_id instances idOf cid).isSome :=
          res_of_lookup hBres (by rw [hpb]; rfl)
        rcases Option.isSome_iff_exists.mp hget with ⟨c, hc⟩
        rw [hpa] at hagree
        have hE0 : elookup idOf E cid = none := optionRelEq_none_right hagree
        show odictEq ((applyEffect instances idOf cid
          ⟨.added, labelOf (check_relationship r), some (check_relationship r), none⟩
          (elookup idOf E cid)).map check_relationship) _ = true
        unfold applyEffect
        rw [hc, hE0]
        show odictEq (some (check_relationship (.rdict (check_relationship r))))
          (some (check_relationship r)) = true
        rw [check_relationship_idem]
        exact dictEq_refl _
      | some sr =>
        rw [hpa] at hagree
        by_cases hd : dictEq (check_relationship sr) (check_relationship r) = true
        · rw [show diffOfPair (some sr) (some r) = none from by
            rw [diffOfPair_some_some, if_pos hd]]
          rcases optionRelEq_some_right hagree with ⟨y, hy, hrel⟩
          show odictEq ((elookup idOf E cid).map check_relationship) _ = true
          rw [hy]
          show odictEq (some (check_relationship y)) (some (check_relationship r)) = true
          exact dictEq_trans (relEq_check hrel) hd
        · rw [show diffOfPair (some sr) (some r)
            = some ⟨.changed, labelOf (check_relationship sr) ++ " -> " ++
                labelOf (check_relationship r),
              some (check_relationship r), some (check_relationship sr)⟩ from by
            rw [diffOfPair_some_some, if_neg hd]]
          have hget : (get_instance_by_id instances idOf cid).isSome :=
            res_of_lookup hBres (by rw [hpb]; rfl)
          rcases Option.isSome_iff_exists.mp hget with ⟨c, hc⟩
          show odictEq ((applyEffect instances idOf cid
            ⟨.changed, labelOf (check_relationship sr) ++ " -> " ++
                labelOf (check_relationship r),
              some (check_relationship r), some (check_relationship sr)⟩
            (elookup idOf E cid)).map check_relationship) _ = true
          unfold applyEffect
          rw [hc]
          show odictEq (some (check_relationship (.rdict (check_relationship r))))
            (some (check_relationship r)) = true
          rw [check_relationship_idem]
          exact dictEq_refl _
  · intro F hFB hFres
    have hsucc : ∀ kv ∈ compareStates A B, kv.2.status = .changed →
        (get_instance_by_id instances idOf kv.1).isSome := by
      intro kv hkv hst
      exact res_of_lookup hBres (compareStates_changed_target_isSome hndA hndB kv hkv hst)
    refine ⟨(compareStates A B).foldl (revertStepPure instances idOf) F, ?_, ?_⟩
    · unfold revert_differences
      rw [hdiff]
      exact revert_foldlM_eq (compareStates A B) F hsucc
    · intro cid
      have hfold := foldl_step_elookup (revertStepPure instances idOf)
        (revertEffect instances idOf) (EdgesResolved instances idOf)
        (fun E kv hP => revertStepPure_resolved kv hP)
        (fun E kv cid hne => revertStepPure_elookup_other hne)
        (fun E kv hP => revertStepPure_elookup_own kv hP)
        (compareStates A B) F hFres (compareStates_keys_nodup A B) cid
      rw [compareStates_lookup A B hndA hndB cid] at hfold
      have hagree := edgesAgree_elookup hFB cid
      constructor
      · intro hnotrem
        cases hpa : plookup (projSnap A) cid with
        | none =>
          cases hpb : plookup (projSnap B) cid with
          | none =>
            rw [hpa, hpb] at hfold
            rw [hfold]
            rw [hpb] at hagree
            rw [optionRelEq_none_right hagree]
            rfl
          | some r =>
            rw [hpa, hpb] at hfold
            have hget : (get_instance_by_id instances idOf cid).isSome :=
              res_of_lookup hBres (by rw [hpb]; rfl)
            rcases Option.isSome_iff_exists.mp hget with ⟨c, hc⟩
            rw [hfold]
            show odictEq ((revertEffect instances idOf cid
              ⟨.added, labelOf (check_relationship r), some (check_relationship r), none⟩
              (elookup idOf F cid)).map check_relationship) _ = true
            unfold revertEffect
            rw [hc]
            rfl
        | some sr =>
          cases hpb : plookup (projSnap B) cid with
          | none =>
            exact absurd ⟨by rw [hpa]; rfl, hpb⟩ hnotrem
          | some r =>
            rw [hpa, hpb] at hfold
            rw [hpb] at hagree
            by_cases hd : dictEq (check_relationship sr) (check_relationship r) = true
            · rw [show diffOfPair (some sr) (some r) = none from by
                rw [diffOfPair_some_some, if_pos hd]] at hfold
              rw [hfold]
              rcases optionRelEq_some_right hagree with ⟨y, hy, hrel⟩
              rw [hy]
              show odictEq (some (check_relationship y)) (some (check_relationship sr)) = true
              exact dictEq_trans (relEq_check hrel) (dictEq_symm hd)
            · rw [show diffOfPair (some sr) (some r)
                = some ⟨.changed, labelOf (check_relationship sr) ++ " -> " ++
                    labelOf (check_relationship r),
                  some (check_relationship r), some (check_relationship sr)⟩ from by
                rw [diffOfPair_some_some, if_neg hd]] at hfold
              have hget : (get_instance_by_id instances idOf cid).isSome :=
                res_of_lookup hBres (by rw [hpb]; rfl)
              rcases Option.isSome_iff_exists.mp hget with ⟨c, hc⟩
              rw [hfold]
              show odictEq ((revertEffect instances idOf cid
                ⟨.changed, labelOf (check_relationship sr) ++ " -> " ++
                    labelOf (check_relationship r),
                  some (check_relationship r), some (check_relationship sr)⟩
                (elookup idOf F cid)).map check_relationship) _ = true
              unfold revertEffect
              rw [hc]
              show odictEq (some (check_relationship (.rdict (check_relationship sr))))
                (some (check_relationship sr)) = true
              rw [check_relationship_idem]
              exact dictEq_refl _
      · intro hpa2 hpb2
        rcases Option.isSome_iff_exists.mp hpa2 with ⟨sr, hpa⟩
        rw [hpa, hpb2] at hfold
        rw [hpb2] at hagree
        have hget : (get_instance_by_id instances idOf cid).isSome :=
          res_of_lookup hAres (by rw [hpa]; rfl)
        rcases Option.isSome_iff_exists.mp hget with ⟨c, hc⟩
        rw [hfold]
        show revertEffect instances idOf cid
          ⟨.removed, labelOf (check_relationship sr), none, some (check_relationship sr)⟩
          (elookup idOf F cid) = some (.rdict [])
        unfold revertEffect
        rw [hc, optionRelEq_none_right hagree]
        rfl

/-- C1 counterexample: every child of both snapshots is resolvable and
the edge list equals `A`'s captured list, yet applying the diff yields
`[(C, {label: "y"})]` — the changed position is written back in
normalized dict form — which is not Python-equal to `B`'s captured edge
list `[(C, "y")]`, refuting "applying the diff … makes that edge list
exactly equal to B's captured edge list". -/
theorem C1_diff_roundtrip_counterexample :
    edgesAgree idOfC1 [(11, Rel.rstr "x")] snapA1 = true ∧
    EdgesResolved [11] idOfC1 [(11, Rel.rstr "x")] ∧
    (∀ t ∈ snapA1, (get_instance_by_id [11] idOfC1 t.1).isSome) ∧
    (∀ t ∈ snapB1, (get_instance_by_id [11] idOfC1 t.1).isSome) ∧
    apply_differences [11] idOfC1 "n" [("n", compareStates snapA1 snapB1)]
      [(11, Rel.rstr "x")] = [(11, Rel.rdict [("label", "y")])] ∧
    edgesAgree idOfC1 (apply_differences [11] idOfC1 "n"
      [("n", compareStates snapA1 snapB1)] [(11, Rel.rstr "x")]) snapB1 = false := by
  refine ⟨by decide, by unfold EdgesResolved; decide, by decide, by decide, by decide,
    by decide⟩

/-- C1 amended witness: the spec's example.  Applying the diff to a
fresh copy of base's edges yields exactly
`[(B, "supports"), (D, {label: "blocks-alt"})]`, normalized-equal
childwise to the revised snapshot; reverting on the revised edges
succeeds and restores `B`'s children exactly with `C` re-added (with the
empty dict, per the code's removed-branch behavior). -/
theorem C1_diff_roundtrip_amended_witness :
    (∀ cid, odictEq
      ((elookup idOfW (apply_differences [1, 2, 3] idOfW "n" diffsW
        [(1, Rel.rstr "supports"), (2, Rel.rstr "blocks")]) cid).map check_relationship)
      ((plookup (projSnap snapBW) cid).map check_relationship) = true) ∧
    apply_differences [1, 2, 3] idOfW "n" diffsW
        [(1, Rel.rstr "supports"), (2, Rel.rstr "blocks")]
      = [(1, Rel.rstr "supports"), (3, Rel.rdict [("label", "blocks-alt")])] ∧
    (∃ F2, revert_differences [1, 2, 3] idOfW "n" diffsW
        [(1, Rel.rstr "supports"), (3, Rel.rstr "blocks-alt")] = some F2 ∧
      ∀ cid,
        (¬ ((plookup (projSnap snapAW) cid).isSome ∧
            plookup (projSnap snapBW) cid = none) →
          odictEq ((elookup idOfW F2 cid).map check_relationship)
            ((plookup (projSnap snapAW) cid).map check_relationship) = true) ∧
        ((plookup (projSnap snapAW) cid).isSome → plookup (projSnap snapBW) cid = none →
          elookup idOfW F2 cid = some (.rdict []))) :=
  ⟨(C1_diff_roundtrip_amended [1, 2, 3] idOfW "n" snapAW snapBW diffsW rfl
      (by decide) (by decide) (by decide) (by decide)).1
      [(1, Rel.rstr "supports"), (2, Rel.rstr "blocks")] (by decide)
      (by unfold EdgesResolved; decide),
    by decide,
    (C1_diff_roundtrip_amended [1, 2, 3] idOfW "n" snapAW snapBW diffsW rfl
      (by decide) (by decide) (by decide) (by decide)).2
      [(1, Rel.rstr "supports"), (3, Rel.rstr "blocks-alt")] (by decide)
      (by unfold EdgesResolved; decide)⟩

end Concepter

